import Mathlib

/-!
# Verification of the Telesnake cartridge VM and JPEG splicer

Shallow embedding of the repository's JavaScript sources:

* `vm.js` — the deterministic Snake VM (`PPUVM`): `runFrame`, `syscall`,
  `snakeInit`, `snakeTick`, `spawnApple`, `randU32`;
* `ppujpeg.js` — the APP15 cartridge codec: `crc32`, `buildApp15Block`,
  `injectBeforeSOS`, `parseCartridge`.

Bytes are modelled as `Nat` (a `Uint8Array` stores values `< 256`); machine
integers use explicit `% 2^32` / `% 2^16` where the source applies `>>> 0`
or `& 0xFFFF`.  Out-of-range indexing of a `Uint8Array` yields `undefined`
in JS, which compares unequal to every opcode/marker byte; `List.getD _ _ 0`
has the same branching behaviour at every guarded read site.
-/

/-! ## Game state (the `render` object of `PPUVM`, vm.js lines 626-641)

The purely cosmetic constants `cellPx`, `boardX`, `boardY` (used only by the
host renderer, never read or written by `snakeInit`/`snakeTick`) are omitted.
-/

structure GState where
  boardW : Nat
  boardH : Nat
  dir : Nat
  pendingDir : Nat
  paused : Bool
  gameOver : Bool
  score : Nat
  high : Nat
  snake : List (Int × Int)
  apple : Int × Int
  lastTick : Nat
deriving Repr, DecidableEq

/-- The `PPUVM` instance state: program counter, halt flag, host-writable
input registers, PRNG register, the header's `osId`, and the game state. -/
structure VMState where
  pc : Nat
  halted : Bool
  ioCmd : Nat
  ioTick : Nat
  modeBits : Nat
  prng : Nat
  osId : Nat
  g : GState
deriving Repr, DecidableEq

/-- Constructor state of `PPUVM` (vm.js lines 604-642) with entry point
`entry` and header tag `osId`. -/
def initialVM (entry osId : Nat) : VMState where
  pc := entry % 2 ^ 32
  halted := false
  ioCmd := 0
  ioTick := 0
  modeBits := 0
  prng := 0xC0FFEE01
  osId := osId
  g := { boardW := 20, boardH := 20, dir := 0, pendingDir := 0
         paused := false, gameOver := false, score := 0, high := 0
         snake := [(10, 12), (10, 13), (10, 14)], apple := (10, 10)
         lastTick := 0xFFFFFFFF }

/-- `setIO` (vm.js lines 651-655): the host writes the input registers,
masked exactly as the source does (`& 0xFFFF`, `>>> 0`, `& 0xFF`). -/
def setIo (s : VMState) (cmd tick mode : Nat) : VMState :=
  { s with ioCmd := cmd % 2 ^ 16, ioTick := tick % 2 ^ 32, modeBits := mode % 2 ^ 8 }

/-- `randU32` (vm.js lines 689-697): xorshift32 on the PRNG register.
Returns the drawn value together with the updated state. -/
def randU32 (s : VMState) : Nat × VMState :=
  let x0 := s.prng % 2 ^ 32
  let x1 := Nat.xor x0 (x0 * 2 ^ 13 % 2 ^ 32)
  let x2 := Nat.xor x1 (x1 / 2 ^ 17)
  let x3 := Nat.xor x2 (x2 * 2 ^ 5 % 2 ^ 32)
  (x3, { s with prng := x3 })

/-- One candidate draw of `spawnApple`'s rejection loop (vm.js lines 729-738),
with `fuel` remaining tries; on exhaustion, the row-major fallback scan
(vm.js lines 739-747).  `occ` is the set of occupied cell keys `x + y*W`. -/
def spawnTry (occ : List Int) (W H : Nat) : Nat → VMState → VMState
  | 0, s =>
    match (List.range (H * W)).find? (fun i =>
        ¬ (((i % W : Nat) : Int) + ((i / W : Nat) : Int) * (W : Int)) ∈ occ) with
    | some i => { s with g := { s.g with apple := (((i % W : Nat) : Int), ((i / W : Nat) : Int)) } }
    | none => s
  | fuel + 1, s =>
    let (r, s') := randU32 s
    let x : Nat := r % W
    let y : Nat := r / 2 ^ 16 % H
    if ((x : Int) + (y : Int) * (W : Int)) ∈ occ then spawnTry occ W H fuel s'
    else { s' with g := { s'.g with apple := ((x : Int), (y : Int)) } }

/-- `spawnApple` (vm.js lines 726-748): up to 2048 PRNG draws rejected
against the snake body, then an exhaustive row-major scan. -/
def spawnApple (s : VMState) : VMState :=
  let W := s.g.boardW
  let H := s.g.boardH
  let occ := s.g.snake.map (fun p => p.1 + p.2 * (W : Int))
  spawnTry occ W H 2048 s

/-- `snakeInit` (vm.js lines 711-724): reset the board, seed the PRNG from
the header's `osId`, and spawn an apple.  Note: it does NOT touch
`lastTick`, and it sets `paused := true`. -/
def snakeInit (s : VMState) : VMState :=
  let g' := { s.g with
    boardW := 20, boardH := 20, dir := 0, pendingDir := 0,
    paused := true, gameOver := false, score := 0,
    snake := [((10 : Int), (12 : Int)), (10, 13), (10, 14)] }
  spawnApple { s with g := g', prng := Nat.xor 0xA5A5A5A5 (s.osId % 2 ^ 32) }

/-- The command-to-direction lookup `({1:0,4:1,2:2,3:3})[cmd] ?? pendingDir`
(vm.js line 768). -/
def cmdToDir (cmd pendingDir : Nat) : Nat :=
  if cmd = 1 then 0 else if cmd = 4 then 1 else if cmd = 2 then 2
  else if cmd = 3 then 3 else pendingDir

/-- The movement phase of `snakeTick` (vm.js lines 775-821): pause/game-over
gate, head advance, wall and self-collision checks, growth and tail pop. -/
def movePhase (s : VMState) : VMState :=
  if s.g.paused ∨ s.g.gameOver then s
  else
    let W := s.g.boardW
    let H := s.g.boardH
    let head := s.g.snake.headD (0, 0)
    let dir := s.g.pendingDir
    let g1 := { s.g with dir := dir }
    let dx : Int := ([0, 1, 0, -1] : List Int).getD dir 0
    let dy : Int := ([-1, 0, 1, 0] : List Int).getD dir 0
    let nx : Int := head.1 + dx
    let ny : Int := head.2 + dy
    if nx < 0 ∨ ny < 0 ∨ (W : Int) ≤ nx ∨ (H : Int) ≤ ny then
      { s with g := { g1 with gameOver := true } }
    else
      let willGrow := nx = g1.apple.1 ∧ ny = g1.apple.2
      let keys : List Int := g1.snake.map (fun p => p.1 + p.2 * (W : Int))
      let keys' : List Int := if willGrow then keys
        else
          let tl := g1.snake.getLastD (0, 0)
          keys.filter (fun k => k ≠ tl.1 + tl.2 * (W : Int))
      if (nx + ny * (W : Int)) ∈ keys' then
        { s with g := { g1 with gameOver := true } }
      else
        let g2 := { g1 with snake := (nx, ny) :: g1.snake }
        if willGrow then
          let score' := g2.score + 1
          spawnApple { s with g := { g2 with
            score := score',
            high := if g2.high < score' then score' else g2.high } }
        else { s with g := { g2 with snake := g2.snake.dropLast } }

/-- `snakeTick` (vm.js lines 750-821): replay guard on `lastTick`, command
dispatch (5 = pause toggle, 6 = restart, 1..4 = pending direction), then the
movement phase. -/
def snakeTick (s : VMState) : VMState :=
  let t := s.ioTick % 2 ^ 32
  if t = s.g.lastTick % 2 ^ 32 then s
  else
    let g0 := { s.g with lastTick := t }
    let cmd := s.ioCmd % 2 ^ 16
    if cmd = 5 then
      let g1 := if s.g.gameOver then g0 else { g0 with paused := ¬ g0.paused }
      movePhase { s with g := g1 }
    else if cmd = 6 then
      let s1 := snakeInit { s with g := g0 }
      { s1 with g := { s1.g with paused := false } }
    else if 1 ≤ cmd ∧ cmd ≤ 4 then
      let want := cmdToDir cmd g0.pendingDir
      let g1 := if (want + 2) % 4 ≠ g0.dir then { g0 with pendingDir := want } else g0
      movePhase { s with g := g1 }
    else movePhase { s with g := g0 }

/-- `syscall` (vm.js lines 700-709): ids 1 and 2 dispatch to the snake
syscalls, any other id halts the machine (fail-closed). -/
def syscall (id : Nat) (s : VMState) : VMState :=
  if id = 1 then snakeInit s
  else if id = 2 then snakeTick s
  else { s with halted := true }

/-- The fetch/dispatch loop of `runFrame` (vm.js lines 662-681).  The third
component of the result counts executed loop iterations (instrumentation for
the cycle-bound theorems; the source returns only `cycles`). -/
def runFrameGo (code : List Nat) (budget : Nat) (s : VMState) (cycles iters : Nat) :
    VMState × Nat × Nat :=
  if s.halted ∨ budget ≤ cycles then (s, cycles, iters)
  else
    let op := code.getD s.pc 0
    let s1 := { s with pc := s.pc + 1 }
    if op = 0x01 then ({ s1 with halted := true }, cycles + 1, iters + 1)
    else if op = 0x40 then
      let id := code.getD s1.pc 0
      let s2 := { s1 with pc := s1.pc + 1 }
      runFrameGo code budget (syscall id s2) (cycles + 2) (iters + 1)
    else ({ s1 with halted := true }, cycles + 1, iters + 1)
termination_by budget - cycles
decreasing_by omega

/-- `runFrame` (vm.js lines 657-686): clear `halted`, run the bounded loop,
set `halted` unconditionally, and return the cycle count (plus the
instrumented iteration count). -/
def runFrame (code : List Nat) (budget : Nat) (s : VMState) : VMState × Nat × Nat :=
  let b := budget % 2 ^ 32
  let r := runFrameGo code b { s with halted := false } 0 0
  ({ r.1 with halted := true }, r.2.1, r.2.2)

/-! ## Structural lemmas about the game-state syscalls -/

/-- `spawnApple` (and its helper loop) only writes the PRNG register and the
apple cell; every other field of the VM and game state is untouched. -/
theorem spawnTry_shape (occ : List Int) (W H : Nat) :
    ∀ (fuel : Nat) (s : VMState), ∃ r a,
      spawnTry occ W H fuel s = { s with prng := r, g := { s.g with apple := a } } := by
  intro fuel
  induction fuel with
  | zero =>
    intro s
    simp only [spawnTry]
    rcases h : (List.range (H * W)).find? (fun i =>
        ¬ (((i % W : Nat) : Int) + ((i / W : Nat) : Int) * (W : Int)) ∈ occ) with _ | i
    · exact ⟨s.prng, s.g.apple, rfl⟩
    · exact ⟨s.prng, (((i % W : Nat) : Int), ((i / W : Nat) : Int)), rfl⟩
  | succ fuel ih =>
    intro s
    simp only [spawnTry, randU32]
    split
    · exact ih _
    · exact ⟨_, _, rfl⟩

theorem spawnApple_shape (s : VMState) : ∃ r a,
    spawnApple s = { s with prng := r, g := { s.g with apple := a } } :=
  spawnTry_shape _ _ _ _ s


theorem movePhase_shape (s : VMState) : ∃ r g',
    movePhase s = { s with prng := r, g := g' } ∧
    g'.lastTick = s.g.lastTick ∧ g'.pendingDir = s.g.pendingDir := by
  unfold movePhase
  dsimp only
  split
  · exact ⟨s.prng, s.g, rfl, rfl, rfl⟩
  · split
    · exact ⟨s.prng, _, rfl, rfl, rfl⟩
    · split <;> split
      all_goals first
        | exact ⟨s.prng, _, rfl, rfl, rfl⟩
        | (obtain ⟨r, a, h⟩ := spawnApple_shape _
           exact ⟨r, _, h, rfl, rfl⟩)

theorem movePhase_lastTick (s : VMState) :
    (movePhase s).g.lastTick = s.g.lastTick := by
  obtain ⟨r, g', h, hlt, _⟩ := movePhase_shape s
  rw [h]
  exact hlt

theorem movePhase_pendingDir (s : VMState) :
    (movePhase s).g.pendingDir = s.g.pendingDir := by
  obtain ⟨r, g', h, _, hp⟩ := movePhase_shape s
  rw [h]
  exact hp

theorem snakeInit_shape (s : VMState) : ∃ r g',
    snakeInit s = { s with prng := r, g := g' } ∧
    g'.lastTick = s.g.lastTick ∧ g'.score = 0 ∧
    g'.snake = [((10 : Int), (12 : Int)), (10, 13), (10, 14)] ∧ g'.paused = true := by
  unfold snakeInit
  dsimp only
  obtain ⟨r, a, h⟩ := spawnApple_shape _
  exact ⟨r, _, h, rfl, rfl, rfl, rfl⟩

theorem snakeInit_lastTick (s : VMState) :
    (snakeInit s).g.lastTick = s.g.lastTick := by
  obtain ⟨r, g', h, hlt, _⟩ := snakeInit_shape s
  rw [h]
  exact hlt

theorem movePhase_ioTick (s : VMState) : (movePhase s).ioTick = s.ioTick := by
  obtain ⟨r, g', h, _, _⟩ := movePhase_shape s
  rw [h]

theorem snakeInit_ioTick (s : VMState) : (snakeInit s).ioTick = s.ioTick := by
  obtain ⟨r, g', h, _⟩ := snakeInit_shape s
  rw [h]

/-- A `snakeTick` whose tick register matches the stored `lastTick` (mod
`2^32`) is a strict no-op (vm.js lines 751-754). -/
theorem snakeTick_noop (s : VMState)
    (h : s.ioTick % 2 ^ 32 = s.g.lastTick % 2 ^ 32) : snakeTick s = s := by
  unfold snakeTick
  dsimp only
  rw [if_pos h]

/-- After any `snakeTick`, the stored `lastTick` agrees with the tick input
register modulo `2^32`. -/
theorem snakeTick_lastTick (s : VMState) :
    (snakeTick s).g.lastTick % 2 ^ 32 = s.ioTick % 2 ^ 32 := by
  unfold snakeTick
  dsimp only
  split
  · next h => exact h.symm
  · split
    · rw [movePhase_lastTick]
      split <;> exact Nat.mod_mod_of_dvd _ dvd_rfl
    · split
      · show ((snakeInit _).g.lastTick) % 2 ^ 32 = _
        rw [snakeInit_lastTick]
        exact Nat.mod_mod_of_dvd _ dvd_rfl
      · split
        · rw [movePhase_lastTick]
          split <;> exact Nat.mod_mod_of_dvd _ dvd_rfl
        · rw [movePhase_lastTick]
          exact Nat.mod_mod_of_dvd _ dvd_rfl

/-- `snakeTick` never writes the tick input register. -/
theorem snakeTick_ioTick (s : VMState) : (snakeTick s).ioTick = s.ioTick := by
  unfold snakeTick
  dsimp only
  split
  · rfl
  · split
    · rw [movePhase_ioTick]
    · split
      · show (snakeInit _).ioTick = _
        rw [snakeInit_ioTick]
      · split <;> rw [movePhase_ioTick]

/-- C5: TICK is idempotent under tick replay.  For every VM state, after one
`snakeTick` a second `snakeTick` with the tick register unchanged (and any
new command / mode register values) leaves the whole state — snake, apple,
direction, pending direction, score, high score, paused, gameOver,
`lastTick`, PRNG register — unchanged. -/
theorem tick_replay_idempotent (s : VMState) (c m : Nat) :
    snakeTick { snakeTick s with ioCmd := c, modeBits := m } =
      { snakeTick s with ioCmd := c, modeBits := m } := by
  apply snakeTick_noop
  show (snakeTick s).ioTick % 2 ^ 32 = (snakeTick s).g.lastTick % 2 ^ 32
  rw [snakeTick_ioTick, snakeTick_lastTick]

/-! ## C6: pending-direction update -/

/-- C6: in a processed TICK, a command in `1..4` sets the pending direction
to the mapped internal direction (1↦0=up, 2↦2=down, 3↦3=left, 4↦1=right)
exactly when `(want+2) % 4 ≠ dir`; with current direction right (1),
command 3 (left) is ignored while command 1 (up) sets pending to 0. -/
theorem tick_direction_commands (s : VMState)
    (ht : s.ioTick % 2 ^ 32 ≠ s.g.lastTick % 2 ^ 32)
    (h1 : 1 ≤ s.ioCmd % 2 ^ 16) (h4 : s.ioCmd % 2 ^ 16 ≤ 4) :
    ((snakeTick s).g.pendingDir =
      if (cmdToDir (s.ioCmd % 2 ^ 16) s.g.pendingDir + 2) % 4 ≠ s.g.dir
        then cmdToDir (s.ioCmd % 2 ^ 16) s.g.pendingDir
        else s.g.pendingDir) ∧
    cmdToDir 1 s.g.pendingDir = 0 ∧ cmdToDir 2 s.g.pendingDir = 2 ∧
    cmdToDir 3 s.g.pendingDir = 3 ∧ cmdToDir 4 s.g.pendingDir = 1 ∧
    (s.g.dir = 1 → s.ioCmd % 2 ^ 16 = 3 →
      (snakeTick s).g.pendingDir = s.g.pendingDir) ∧
    (s.g.dir = 1 → s.ioCmd % 2 ^ 16 = 1 → (snakeTick s).g.pendingDir = 0) := by
  have hc5 : ¬ (s.ioCmd % 2 ^ 16 = 5) := by omega
  have hc6 : ¬ (s.ioCmd % 2 ^ 16 = 6) := by omega
  have hmain : (snakeTick s).g.pendingDir =
      if (cmdToDir (s.ioCmd % 2 ^ 16) s.g.pendingDir + 2) % 4 ≠ s.g.dir
        then cmdToDir (s.ioCmd % 2 ^ 16) s.g.pendingDir
        else s.g.pendingDir := by
    unfold snakeTick
    dsimp only
    rw [if_neg ht, if_neg hc5, if_neg hc6, if_pos ⟨h1, h4⟩, movePhase_pendingDir]
    split <;> rfl
  refine ⟨hmain, rfl, rfl, rfl, rfl, ?_, ?_⟩
  · intro hdir hcmd
    rw [hmain, hcmd, hdir]
    simp [cmdToDir]
  · intro hdir hcmd
    rw [hmain, hcmd, hdir]
    simp [cmdToDir]

theorem tick_direction_commands_witness :
    (snakeTick (setIo (initialVM 0 0) 1 1 0)).g.pendingDir =
      if (cmdToDir ((setIo (initialVM 0 0) 1 1 0).ioCmd % 2 ^ 16)
            (setIo (initialVM 0 0) 1 1 0).g.pendingDir + 2) % 4 ≠
          (setIo (initialVM 0 0) 1 1 0).g.dir
        then cmdToDir ((setIo (initialVM 0 0) 1 1 0).ioCmd % 2 ^ 16)
          (setIo (initialVM 0 0) 1 1 0).g.pendingDir
        else (setIo (initialVM 0 0) 1 1 0).g.pendingDir :=
  (tick_direction_commands (setIo (initialVM 0 0) 1 1 0)
    (by decide) (by decide) (by decide)).1

/-! ## C10: score = snake length - 3 invariant -/

theorem movePhase_score_length (s : VMState)
    (h : s.g.score + 3 = s.g.snake.length) :
    (movePhase s).g.score + 3 = (movePhase s).g.snake.length := by
  unfold movePhase
  dsimp only
  split
  · exact h
  · split
    · exact h
    · split <;> split
      · exact h
      · obtain ⟨r, a, hs⟩ := spawnApple_shape _
        rw [hs]
        simp only [List.length_cons]
        omega
      · exact h
      · simp only [List.length_dropLast, List.length_cons]
        omega

theorem snakeInit_score_length (s : VMState) :
    (snakeInit s).g.score + 3 = (snakeInit s).g.snake.length := by
  obtain ⟨r, g', hs, _, hscore, hsnake, _⟩ := snakeInit_shape s
  rw [hs]
  simp [hscore, hsnake]

/-- C10: the equation `score + 3 = length of the snake body` holds after
INIT and is preserved by every TICK (growth, non-growth, pause, game over,
replay and restart alike). -/
theorem score_tracks_length (s : VMState)
    (h : s.g.score + 3 = s.g.snake.length) :
    (snakeInit s).g.score + 3 = (snakeInit s).g.snake.length ∧
    (snakeTick s).g.score + 3 = (snakeTick s).g.snake.length := by
  refine ⟨snakeInit_score_length s, ?_⟩
  unfold snakeTick
  dsimp only
  split
  · exact h
  · split
    · apply movePhase_score_length
      dsimp only
      split <;> exact h
    · split
      · show (snakeInit _).g.score + 3 = (snakeInit _).g.snake.length
        exact snakeInit_score_length _
      · split
        · apply movePhase_score_length
          dsimp only
          split <;> exact h
        · exact movePhase_score_length _ h

theorem score_tracks_length_witness :
    (snakeInit (initialVM 0 0)).g.score + 3 =
        (snakeInit (initialVM 0 0)).g.snake.length ∧
      (snakeTick (initialVM 0 0)).g.score + 3 =
        (snakeTick (initialVM 0 0)).g.snake.length :=
  score_tracks_length (initialVM 0 0) (by decide)

/-! ## C1: the concrete INIT/first-TICK scenario (osId = 0x534E414B) -/

/-- C1 counterexample: with `osId = 0x534E414B`, INIT is followed by a first
TICK with command 0 and tick 1 (≠ `lastTick`), but the snake does NOT move
to `[(10,11),(10,12),(10,13)]` — `snakeInit` leaves the game paused, so the
movement phase is skipped. -/
theorem init_first_tick_counterexample :
    ¬ ((snakeTick (setIo (snakeInit (initialVM 0 0x534E414B)) 0 1 0)).g.snake =
        [((10 : Int), (11 : Int)), (10, 12), (10, 13)]) := by
  decide

/-- C1 amended: INIT sets the snake to the fixed 3-cell seed and seeds the
PRNG with `0xA5A5A5A5 XOR 0x534E414B` (the apple is the first xorshift32
draw from that seed, giving cell (5,2)), but also sets `paused := true`;
the first TICK with command 0 and tick 1 is processed (it records
`lastTick = 1`) yet leaves the body `[(10,12),(10,13),(10,14)]` and score 0.
Only once the pause flag is cleared does a TICK with command 0 and tick 1
move the snake one cell upward to `[(10,11),(10,12),(10,13)]` with score 0. -/
theorem init_first_tick_amended :
    (snakeInit (initialVM 0 0x534E414B)).g.snake =
        [((10 : Int), (12 : Int)), (10, 13), (10, 14)] ∧
    (snakeInit (initialVM 0 0x534E414B)).g.paused = true ∧
    Nat.xor 0xA5A5A5A5 0x534E414B = 0xF6EBE4EE ∧
    (randU32 { initialVM 0 0x534E414B with prng := 0xF6EBE4EE }).1 = 3300547445 ∧
    (snakeInit (initialVM 0 0x534E414B)).g.apple =
        (((3300547445 % 20 : Nat) : Int), ((3300547445 / 2 ^ 16 % 20 : Nat) : Int)) ∧
    (snakeInit (initialVM 0 0x534E414B)).g.apple = (5, 2) ∧
    (snakeTick (setIo (snakeInit (initialVM 0 0x534E414B)) 0 1 0)).g.snake =
        [((10 : Int), (12 : Int)), (10, 13), (10, 14)] ∧
    (snakeTick (setIo (snakeInit (initialVM 0 0x534E414B)) 0 1 0)).g.score = 0 ∧
    (snakeTick (setIo (snakeInit (initialVM 0 0x534E414B)) 0 1 0)).g.lastTick = 1 ∧
    (snakeTick (setIo
        { snakeInit (initialVM 0 0x534E414B) with
          g := { (snakeInit (initialVM 0 0x534E414B)).g with paused := false } }
        0 1 0)).g.snake = [((10 : Int), (11 : Int)), (10, 12), (10, 13)] ∧
    (snakeTick (setIo
        { snakeInit (initialVM 0 0x534E414B) with
          g := { (snakeInit (initialVM 0 0x534E414B)).g with paused := false } }
        0 1 0)).g.score = 0 := by
  decide

/-! ## C7/C8/C9: the bounded fetch/dispatch loop -/

theorem runFrameGo_iters_le (code : List Nat) (budget : Nat) :
    ∀ (n : Nat) (s : VMState) (cycles iters : Nat), budget - cycles ≤ n →
      iters ≤ cycles → iters ≤ budget →
      (runFrameGo code budget s cycles iters).2.2 ≤ budget := by
  intro n
  induction n with
  | zero =>
    intro s cycles iters hn hic hib
    rw [runFrameGo]
    rw [if_pos (Or.inr (by omega))]
    exact hib
  | succ n ih =>
    intro s cycles iters hn hic hib
    rw [runFrameGo]
    split
    · exact hib
    · next hg =>
      have hcb : cycles < budget := by
        rcases Nat.lt_or_ge cycles budget with h | h
        · exact h
        · exact absurd (Or.inr h) hg
      dsimp only
      split
      · show iters + 1 ≤ budget
        omega
      · split
        · exact ih _ _ _ (by omega) (by omega) (by omega)
        · show iters + 1 ≤ budget
          omega

/-- C7: `runFrame` terminates with at most `cycleBudget` fetch/dispatch loop
iterations, for every bytecode buffer, program counter and budget — the
iteration count (third component) never exceeds the budget. -/
theorem run_frame_bounded (code : List Nat) (budget : Nat) (s : VMState) :
    (runFrame code budget s).2.2 ≤ budget % 2 ^ 32 ∧
    (runFrame code budget s).2.2 ≤ budget := by
  have h := runFrameGo_iters_le code (budget % 2 ^ 32) (budget % 2 ^ 32)
    { s with halted := false } 0 0 (by omega) (by omega) (by omega)
  exact ⟨h, le_trans h (Nat.mod_le _ _)⟩

/-- C9: every `runFrame` invocation returns with `halted = true`, and the
halt flag left over from a previous invocation is cleared at entry, so it
never prevents the next invocation from executing (the run is independent
of the incoming `halted` value). -/
theorem run_frame_always_halts (code : List Nat) (budget : Nat) (s : VMState) (b : Bool) :
    (runFrame code budget s).1.halted = true ∧
    runFrame code budget { s with halted := b } = runFrame code budget s :=
  ⟨rfl, rfl⟩

/-- C8: a fetch of a byte that is neither HALT (0x01) nor SYSCALL (0x40), or
a SYSCALL with an id outside the syscall table ({1, 2}), leaves the loop
halted with the game state and PRNG untouched: the loop returns immediately
with only `pc` advanced and `halted := true`, so no further instruction is
dispatched and no syscall runs after the offending fetch. -/
theorem run_frame_fail_closed (code : List Nat) (budget : Nat) (s : VMState)
    (cycles iters : Nat) (hh : s.halted = false) (hc : cycles < budget) :
    (code.getD s.pc 0 ≠ 0x01 → code.getD s.pc 0 ≠ 0x40 →
      runFrameGo code budget s cycles iters =
        ({ s with pc := s.pc + 1, halted := true }, cycles + 1, iters + 1)) ∧
    (code.getD s.pc 0 = 0x40 → code.getD (s.pc + 1) 0 ≠ 1 → code.getD (s.pc + 1) 0 ≠ 2 →
      runFrameGo code budget s cycles iters =
        ({ s with pc := s.pc + 2, halted := true }, cycles + 2, iters + 1)) := by
  have hg : ¬ (s.halted = true ∨ budget ≤ cycles) := by
    intro h
    rcases h with h | h
    · rw [hh] at h
      exact Bool.false_ne_true h
    · omega
  constructor
  · intro hop1 hop40
    rw [runFrameGo, if_neg hg]
    dsimp only
    rw [if_neg hop1, if_neg hop40]
  · intro hop hid1 hid2
    rw [runFrameGo, if_neg hg]
    dsimp only
    rw [if_neg (by rw [hop]; decide : ¬ (code.getD s.pc 0 = 0x01)), if_pos hop]
    show runFrameGo code budget (syscall (code.getD (s.pc + 1) 0)
      { s with pc := s.pc + 2 }) (cycles + 2) (iters + 1) = _
    rw [syscall, if_neg hid1, if_neg hid2]
    rw [runFrameGo, if_pos (Or.inl rfl)]

theorem run_frame_fail_closed_witness :
    runFrameGo [0x99] 10 (initialVM 0 0) 0 0 =
      ({ initialVM 0 0 with pc := 1, halted := true }, 1, 1) :=
  (run_frame_fail_closed [0x99] 10 (initialVM 0 0) 0 0 rfl (by decide)).1
    (by decide) (by decide)

/-! ## ppujpeg.js: CRC32, block codec, marker-stream splicer -/

/-- One shift-xor round of CRC32 (ppujpeg.js lines 32-35): the mask
`-(c & 1)` selects the polynomial when the low bit is set. -/
def crcRound (c : Nat) : Nat :=
  Nat.xor (c / 2) (if c % 2 = 1 then 0xEDB88320 else 0)

/-- Absorb one byte into the CRC state (ppujpeg.js lines 31-36). -/
def crcByte (c b : Nat) : Nat := crcRound^[8] (Nat.xor c b)

/-- `crc32` (ppujpeg.js lines 27-38): IEEE 802.3, polynomial 0xEDB88320. -/
def crc32 (l : List Nat) : Nat :=
  Nat.xor (l.foldl crcByte 0xFFFFFFFF) 0xFFFFFFFF

/-- `readU16BE` (ppujpeg.js line 40). -/
def readU16BE (u8 : List Nat) (off : Nat) : Nat :=
  u8.getD off 0 * 2 ^ 8 + u8.getD (off + 1) 0

/-- `readU32BE` (ppujpeg.js lines 41-43). -/
def readU32BE (u8 : List Nat) (off : Nat) : Nat :=
  u8.getD off 0 * 2 ^ 24 + u8.getD (off + 1) 0 * 2 ^ 16 +
    u8.getD (off + 2) 0 * 2 ^ 8 + u8.getD (off + 3) 0

/-- `writeU32BE` (ppujpeg.js line 45) as the list of four big-endian bytes
of `v` (a `DataView.setUint32` stores `v` modulo `2^32`). -/
def u32be (v : Nat) : List Nat :=
  [v / 2 ^ 24 % 2 ^ 8, v / 2 ^ 16 % 2 ^ 8, v / 2 ^ 8 % 2 ^ 8, v % 2 ^ 8]

/-- A block as returned by `parseCartridge` (ppujpeg.js line 176):
`{version, blockType, flags, payload}`. -/
structure BlockView where
  version : Nat
  blockType : Nat
  flags : Nat
  payload : List Nat
deriving Repr, DecidableEq

/-- The argument record of `buildApp15Block` (ppujpeg.js line 47):
block type, payload bytes, version and the two used flag bits. -/
structure BlockSpec where
  blockType : Nat
  payload : List Nat
  version : Nat
  crc : Bool
  compressed : Bool
deriving Repr, DecidableEq

/-- The encoded flag byte `(flags.crc?1:0) | (flags.compressed?2:0)`
(ppujpeg.js line 49); bit 2 (encrypted) is intentionally never set. -/
def flagByte (b : BlockSpec) : Nat :=
  (if b.crc then 1 else 0) + (if b.compressed then 2 else 0)

/-- `buildApp15Block` (ppujpeg.js lines 47-72): magic + version + type +
flags + reserved zero byte + u32 payload length + payload, then the CRC32
over everything so far when the crc flag is set. -/
def buildApp15Block (b : BlockSpec) : List Nat :=
  let head : List Nat := [0x50, 0x50, 0x55, 0x4a, b.version % 2 ^ 8,
    b.blockType % 2 ^ 8, flagByte b % 2 ^ 8, 0] ++ u32be b.payload.length
  let body := head ++ b.payload
  if b.crc then body ++ u32be (crc32 body) else body

/-- The inner fill-byte loop `while(p < u8.length && u8[p] === 0xFF) p++`
shared by both marker walks (ppujpeg.js lines 85 and 139).  The loop body
runs at most `u8.length - p` times, so the callers' fuel `u8.length` always
suffices: when the fuel runs out the position has reached `u8.length` and
the loop guard would stop anyway. -/
def skipFill (u8 : List Nat) : Nat → Nat → Nat
  | 0, p => p
  | fuel + 1, p =>
    if p < u8.length ∧ u8.getD p 0 = 0xFF then skipFill u8 fuel (p + 1) else p

/-- The marker walk of `injectBeforeSOS` (ppujpeg.js lines 80-100),
returning the splice offset of the start-of-scan marker.  The walk advances
the position by at least two per iteration, so the fuel `u8.length + 1`
supplied by `injectBeforeSOS` can never run out (`injectGo_no_fuel_error`);
the sentinel keeps the recursion structural. -/
def injectGo (u8 : List Nat) : Nat → Nat → Except String Nat
  | 0, _ => Except.error "out of fuel"
  | fuel + 1, p =>
    if p < u8.length then
      if u8.getD p 0 ≠ 0xFF then Except.error "Malformed JPEG: expected marker 0xFF"
      else
        let q := skipFill u8 u8.length p
        if u8.length ≤ q then Except.error "Malformed JPEG: truncated marker"
        else
          let marker := u8.getD q 0
          if marker = 0xDA then Except.ok (q - 1)
          else if marker = 0xD9 then Except.error "Unexpected EOI before SOS"
          else if (0xD0 ≤ marker ∧ marker ≤ 0xD7) ∨ marker = 0x01 then
            injectGo u8 fuel (q + 1)
          else if u8.length < q + 3 then
            Except.error "Malformed JPEG: truncated segment length"
          else
            let segLen := readU16BE u8 (q + 1)
            if segLen < 2 then Except.error "Malformed JPEG: invalid segment length"
            else injectGo u8 fuel (q + 1 + segLen)
    else Except.error "Could not find SOS"

/-- One APP15 segment around an already-encoded payload (ppujpeg.js lines
105-115): `FF EF` marker, u16 length (payload + 2), payload bytes. -/
def segOf (pl : List Nat) : List Nat :=
  [0xFF, 0xEF, (pl.length + 2) % 2 ^ 16 / 2 ^ 8, (pl.length + 2) % 2 ^ 8] ++ pl

/-- The segment-building loop of `injectBeforeSOS` (ppujpeg.js lines
103-116), failing on any payload whose segment length would exceed 65535. -/
def buildSegs : List (List Nat) → Except String (List Nat)
  | [] => Except.ok []
  | pl :: rest =>
    if 0xFFFF < pl.length + 2 then Except.error "APP15 segment too large"
    else
      match buildSegs rest with
      | Except.ok s => Except.ok (segOf pl ++ s)
      | Except.error e => Except.error e

/-- `injectBeforeSOS` (ppujpeg.js lines 74-127): SOI check, marker walk to
the splice point, then the original prefix ++ APP15 segments ++ suffix. -/
def injectBeforeSOS (u8 : List Nat) (appPayloads : List (List Nat)) :
    Except String (List Nat) :=
  if u8.length < 4 ∨ u8.getD 0 0 ≠ 0xFF ∨ u8.getD 1 0 ≠ 0xD8 then
    Except.error "Not a JPEG (missing SOI)"
  else
    match injectGo u8 (u8.length + 1) 2 with
    | Except.error e => Except.error e
    | Except.ok sosOff =>
      match buildSegs appPayloads with
      | Except.error e => Except.error e
      | Except.ok segs => Except.ok (u8.take sosOff ++ segs ++ u8.drop sosOff)

/-- The PPUJ-block handling of one APP15 payload inside `parseCartridge`
(ppujpeg.js lines 156-177): magic test (`none` = silently skipped), then
encrypted-flag, declared-length, cumulative-ceiling and CRC checks; on
success the decoded block and its payload length. -/
def handleApp15 (pl : List Nat) (maxTotal totalPayload : Nat) :
    Except String (Option (BlockView × Nat)) :=
  if 12 ≤ pl.length ∧ pl.getD 0 0 = 0x50 ∧ pl.getD 1 0 = 0x50 ∧
      pl.getD 2 0 = 0x55 ∧ pl.getD 3 0 = 0x4a then
    if pl.getD 6 0 / 4 % 2 = 1 then
      Except.error "Encrypted flag set (NOT USED per spec)"
    else
      let n := readU32BE pl 8
      let crcLen : Nat := if pl.getD 6 0 % 2 = 1 then 4 else 0
      if 12 + n + crcLen ≠ pl.length then
        Except.error "PPUJ block length mismatch"
      else if maxTotal < totalPayload + n then
        Except.error "Cartridge too large"
      else
        let payload := (pl.drop 12).take n
        if pl.getD 6 0 % 2 = 1 then
          if crc32 (pl.take (12 + n)) ≠ readU32BE pl (12 + n) then
            Except.error "CRC32 mismatch"
          else
            Except.ok (some (⟨pl.getD 4 0, pl.getD 5 0, pl.getD 6 0, payload⟩, n))
        else Except.ok (some (⟨pl.getD 4 0, pl.getD 5 0, pl.getD 6 0, payload⟩, n))
  else Except.ok none

/-- The marker walk of `parseCartridge` (ppujpeg.js lines 136-180):
same structure as `injectGo` but it stops (returning the collected blocks)
at SOS or EOI, bounds each segment against the buffer, and decodes PPUJ
blocks out of APP15 segments via `handleApp15`. -/
def parseGo (u8 : List Nat) (maxTotal : Nat) :
    Nat → Nat → List BlockView → Nat → Except String (List BlockView)
  | 0, _, _, _ => Except.error "out of fuel"
  | fuel + 1, p, blocks, totalPayload =>
    if p < u8.length then
      if u8.getD p 0 ≠ 0xFF then Except.error "Malformed JPEG: expected marker 0xFF"
      else
        let q := skipFill u8 u8.length p
        if u8.length ≤ q then Except.error "Malformed JPEG: truncated marker"
        else
          let marker := u8.getD q 0
          if marker = 0xDA then Except.ok blocks
          else if marker = 0xD9 then Except.ok blocks
          else if (0xD0 ≤ marker ∧ marker ≤ 0xD7) ∨ marker = 0x01 then
            parseGo u8 maxTotal fuel (q + 1) blocks totalPayload
          else if u8.length < q + 3 then
            Except.error "Malformed JPEG: truncated segment length"
          else
            let segLen := readU16BE u8 (q + 1)
            if segLen < 2 then Except.error "Malformed JPEG: invalid segment length"
            else
              let segEnd := q + 1 + segLen
              if u8.length < segEnd then Except.error "Malformed JPEG: segment overruns file"
              else if marker = 0xEF then
                match handleApp15 ((u8.drop (q + 3)).take (segLen - 2))
                    maxTotal totalPayload with
                | Except.error e => Except.error e
                | Except.ok none => parseGo u8 maxTotal fuel segEnd blocks totalPayload
                | Except.ok (some (b, n)) =>
                  parseGo u8 maxTotal fuel segEnd (blocks ++ [b]) (totalPayload + n)
              else parseGo u8 maxTotal fuel segEnd blocks totalPayload
    else Except.ok blocks

/-- `parseCartridge` (ppujpeg.js lines 129-183); `maxTotal` is the
cumulative-payload ceiling (default `8*1024*1024` at the JS call sites). -/
def parseCartridge (u8 : List Nat) (maxTotal : Nat) : Except String (List BlockView) :=
  if u8.length < 4 ∨ u8.getD 0 0 ≠ 0xFF ∨ u8.getD 1 0 ≠ 0xD8 then
    Except.error "Not a JPEG (missing SOI)"
  else parseGo u8 maxTotal (u8.length + 1) 2 [] 0

/-- The view of an input block that `parseCartridge` reconstructs. -/
def blockView (b : BlockSpec) : BlockView :=
  ⟨b.version, b.blockType, flagByte b, b.payload⟩

/-- Well-formedness of an input block: in-range u8 fields, byte-valued
payload, and an encoded size small enough for one APP15 segment. -/
def WellFormedBlock (b : BlockSpec) : Prop :=
  b.version < 2 ^ 8 ∧ b.blockType < 2 ^ 8 ∧ (∀ x ∈ b.payload, x < 2 ^ 8) ∧
    (buildApp15Block b).length + 2 ≤ 0xFFFF

instance (b : BlockSpec) : Decidable (WellFormedBlock b) := by
  unfold WellFormedBlock
  infer_instance

/-! ## List access helpers -/

theorem getD_append_left (l1 l2 : List Nat) (i d : Nat) (h : i < l1.length) :
    (l1 ++ l2).getD i d = l1.getD i d := by
  induction l1 generalizing i with
  | nil => simp at h
  | cons a l ih =>
    cases i with
    | zero => rfl
    | succ i =>
      simp only [List.length_cons, Nat.add_lt_add_iff_right] at h
      exact ih i h

theorem getD_append_right (l1 l2 : List Nat) (i d : Nat) :
    (l1 ++ l2).getD (l1.length + i) d = l2.getD i d := by
  induction l1 with
  | nil => rw [List.nil_append, List.length_nil, Nat.zero_add]
  | cons a l ih =>
    have h : (a :: l).length + i = l.length + i + 1 := by
      rw [List.length_cons]
      omega
    rw [h]
    exact ih

theorem getD_drop (l : List Nat) (n i d : Nat) :
    (l.drop n).getD i d = l.getD (n + i) d := by
  induction l generalizing n with
  | nil => simp [List.getD]
  | cons a l ih =>
    cases n with
    | zero => rw [Nat.zero_add, List.drop_zero]
    | succ n =>
      have h : n + 1 + i = n + i + 1 := by omega
      rw [h]
      exact ih n

theorem getD_take (l : List Nat) (n i d : Nat) (h : i < n) :
    (l.take n).getD i d = l.getD i d := by
  induction l generalizing n i with
  | nil => simp [List.getD]
  | cons a l ih =>
    cases n with
    | zero => omega
    | succ n =>
      cases i with
      | zero => rfl
      | succ i => exact ih n i (by omega)

theorem skipFill_stop (u8 : List Nat) (fuel p : Nat)
    (h : ¬ (p < u8.length ∧ u8.getD p 0 = 0xFF)) : skipFill u8 fuel p = p := by
  cases fuel with
  | zero => rfl
  | succ fuel => rw [skipFill, if_neg h]

theorem skipFill_step (u8 : List Nat) (fuel p : Nat) (hf : 1 ≤ fuel)
    (h1 : p < u8.length) (hFF : u8.getD p 0 = 0xFF)
    (hstop : u8.getD (p + 1) 0 ≠ 0xFF) : skipFill u8 fuel p = p + 1 := by
  obtain ⟨f, rfl⟩ : ∃ f, fuel = f + 1 := ⟨fuel - 1, by omega⟩
  rw [skipFill, if_pos ⟨h1, hFF⟩]
  exact skipFill_stop u8 f (p + 1) (fun hc => hstop hc.2)

theorem getD_of_drop_eq (u8 : List Nat) (p : Nat) (l : List Nat)
    (h : u8.drop p = l) (i d : Nat) : u8.getD (p + i) d = l.getD i d := by
  rw [← getD_drop, h]

/-! ## C3: a CRC mismatch is a hard parse failure -/

theorem handleApp15_crc_mismatch (pl : List Nat) (maxTotal totalPayload : Nat)
    (h12 : 12 ≤ pl.length)
    (hm0 : pl.getD 0 0 = 0x50) (hm1 : pl.getD 1 0 = 0x50)
    (hm2 : pl.getD 2 0 = 0x55) (hm3 : pl.getD 3 0 = 0x4a)
    (hcrcflag : pl.getD 6 0 % 2 = 1)
    (hencrypted : pl.getD 6 0 / 4 % 2 ≠ 1)
    (hn : 12 + readU32BE pl 8 + 4 = pl.length)
    (hceil : totalPayload + readU32BE pl 8 ≤ maxTotal)
    (hbad : crc32 (pl.take (12 + readU32BE pl 8)) ≠ readU32BE pl (12 + readU32BE pl 8)) :
    handleApp15 pl maxTotal totalPayload = Except.error "CRC32 mismatch" := by
  unfold handleApp15
  rw [if_pos ⟨h12, hm0, hm1, hm2, hm3⟩, if_neg hencrypted]
  dsimp only
  rw [if_pos hcrcflag]
  rw [if_neg (show ¬ (12 + readU32BE pl 8 + 4 ≠ pl.length) from by omega)]
  rw [if_neg (show ¬ (maxTotal < totalPayload + readU32BE pl 8) from by omega)]
  rw [if_pos hcrcflag, if_pos hbad]

/-- C3: whenever the extraction walk reaches an APP15 segment holding a PPUJ
block whose flags have the CRC bit set, and the CRC32 recomputed over magic
through payload differs from the stored checksum, the whole parse fails with
the `CRC32 mismatch` error — no block list is returned. -/
theorem crc_mismatch_fails (u8 pl rest : List Nat) (maxTotal f p : Nat)
    (blocks : List BlockView) (totalPayload : Nat)
    (hdrop : u8.drop p = 0xFF :: 0xEF :: ((pl.length + 2) / 2 ^ 8) ::
      ((pl.length + 2) % 2 ^ 8) :: (pl ++ rest))
    (hlen : pl.length + 2 ≤ 0xFFFF)
    (h12 : 12 ≤ pl.length)
    (hm0 : pl.getD 0 0 = 0x50) (hm1 : pl.getD 1 0 = 0x50)
    (hm2 : pl.getD 2 0 = 0x55) (hm3 : pl.getD 3 0 = 0x4a)
    (hcrcflag : pl.getD 6 0 % 2 = 1)
    (hencrypted : pl.getD 6 0 / 4 % 2 ≠ 1)
    (hn : 12 + readU32BE pl 8 + 4 = pl.length)
    (hceil : totalPayload + readU32BE pl 8 ≤ maxTotal)
    (hbad : crc32 (pl.take (12 + readU32BE pl 8)) ≠ readU32BE pl (12 + readU32BE pl 8)) :
    parseGo u8 maxTotal (f + 1) p blocks totalPayload = Except.error "CRC32 mismatch" := by
  have hlp : u8.length - p = 4 + (pl.length + rest.length) := by
    have h := congrArg List.length hdrop
    simp only [List.length_drop, List.length_cons, List.length_append] at h
    omega
  have hplt : p < u8.length := by omega
  have hsz : p + 4 + pl.length ≤ u8.length := by omega
  have hg := getD_of_drop_eq u8 p _ hdrop
  have hp0 : u8.getD p 0 = 0xFF := by simpa using hg 0 0
  have hp1 : u8.getD (p + 1) 0 = 0xEF := by simpa using hg 1 0
  have hp2 : u8.getD (p + 2) 0 = (pl.length + 2) / 2 ^ 8 := by simpa using hg 2 0
  have hp3 : u8.getD (p + 3) 0 = (pl.length + 2) % 2 ^ 8 := by simpa using hg 3 0
  have hsf : skipFill u8 u8.length p = p + 1 :=
    skipFill_step u8 u8.length p (by omega) hplt hp0 (by rw [hp1]; decide)
  have hseg : readU16BE u8 (p + 1 + 1) = pl.length + 2 := by
    unfold readU16BE
    have e : p + 1 + 1 = p + 2 := by omega
    rw [e, hp2, show p + 2 + 1 = p + 3 from by omega, hp3]
    omega
  have hd4 : u8.drop (p + 1 + 3) = pl ++ rest := by
    have e : (u8.drop p).drop 4 = u8.drop (p + 4) := List.drop_drop 4 p u8
    rw [show p + 1 + 3 = p + 4 from by omega, ← e, hdrop]
    rfl
  have hpl : (u8.drop (p + 1 + 3)).take (pl.length + 2 - 2) = pl := by
    rw [hd4, show pl.length + 2 - 2 = pl.length from by omega, List.take_left]
  rw [parseGo]
  rw [if_pos hplt, if_neg (show ¬ (u8.getD p 0 ≠ 0xFF) from by rw [hp0]; simp)]
  dsimp only
  rw [hsf, if_neg (show ¬ (u8.length ≤ p + 1) from by omega), hp1]
  rw [if_neg (show ¬ ((0xEF : Nat) = 0xDA) from by decide)]
  rw [if_neg (show ¬ ((0xEF : Nat) = 0xD9) from by decide)]
  rw [if_neg (show ¬ (((0xD0 : Nat) ≤ 0xEF ∧ (0xEF : Nat) ≤ 0xD7) ∨ (0xEF : Nat) = 0x01) from by decide)]
  rw [if_neg (show ¬ (u8.length < p + 1 + 3) from by omega)]
  rw [hseg, if_neg (show ¬ (pl.length + 2 < 2) from by omega)]
  rw [if_neg (show ¬ (u8.length < p + 1 + 1 + (pl.length + 2)) from by omega)]
  rw [if_pos (show (0xEF : Nat) = 0xEF from rfl)]
  rw [hpl]
  rw [handleApp15_crc_mismatch pl maxTotal totalPayload h12 hm0 hm1 hm2 hm3
    hcrcflag hencrypted hn hceil hbad]

set_option maxRecDepth 4096 in
theorem crc_mismatch_fails_witness :
    parseGo
      ([0xFF, 0xD8] ++ [0xFF, 0xEF, 0, 18] ++
        ([0x50, 0x50, 0x55, 0x4a, 1, 2, 1, 0, 0, 0, 0, 0, 0xDE, 0xAD, 0xBE, 0xEF] ++
          [0xFF, 0xDA]))
      (8 * 1024 * 1024) 21 2 [] 0 = Except.error "CRC32 mismatch" :=
  crc_mismatch_fails _
    [0x50, 0x50, 0x55, 0x4a, 1, 2, 1, 0, 0, 0, 0, 0, 0xDE, 0xAD, 0xBE, 0xEF]
    [0xFF, 0xDA] (8 * 1024 * 1024) 20 2 [] 0
    (by decide) (by decide) (by decide) (by decide) (by decide) (by decide)
    (by decide) (by decide) (by decide) (by decide) (by decide) (by decide)

/-! ## C4: EOI before SOS -/

theorem skipFill_replicate (u8 : List Nat) : ∀ (k : Nat), ∀ (fuel p m : Nat),
    ∀ (rest : List Nat), k + 1 ≤ fuel →
    u8.drop p = List.replicate (k + 1) 0xFF ++ (m :: rest) → m ≠ 0xFF →
    skipFill u8 fuel p = p + (k + 1) := by
  intro k
  induction k with
  | zero =>
    intro fuel p m rest hf h hm
    have hlp : p < u8.length := by
      have hl := congrArg List.length h
      simp only [List.length_drop, List.length_append, List.length_replicate,
        List.length_cons] at hl
      omega
    have h0 : u8.getD p 0 = 0xFF := by simpa using getD_of_drop_eq u8 p _ h 0 0
    have h1 : u8.getD (p + 1) 0 = m := by simpa using getD_of_drop_eq u8 p _ h 1 0
    exact skipFill_step u8 fuel p hf hlp h0 (by rw [h1]; exact hm)
  | succ k ih =>
    intro fuel p m rest hf h hm
    have hlp : p < u8.length := by
      have hl := congrArg List.length h
      simp only [List.length_drop, List.length_append, List.length_replicate,
        List.length_cons] at hl
      omega
    have h0 : u8.getD p 0 = 0xFF := by simpa using getD_of_drop_eq u8 p _ h 0 0
    have hdx : u8.drop (p + 1) = List.replicate (k + 1) 0xFF ++ (m :: rest) := by
      have e : (u8.drop p).drop 1 = u8.drop (p + 1) := List.drop_drop 1 p u8
      rw [← e, h]
      rfl
    obtain ⟨f, rfl⟩ : ∃ f, fuel = f + 1 := ⟨fuel - 1, by omega⟩
    rw [skipFill, if_pos ⟨hlp, h0⟩, ih f (p + 1) m rest (by omega) hdx hm]
    omega

/-- C4 amended: on a marker-stream position whose next marker (after a run
of fill bytes) is EOI before any SOS has been seen, `injectBeforeSOS`'s walk
fails with `Unexpected EOI before SOS`, while `parseCartridge`'s walk stops
and returns the blocks collected so far. -/
theorem eoi_before_sos_behavior (u8 rest : List Nat) (k f p mt t : Nat)
    (acc : List BlockView)
    (hdrop : u8.drop p = List.replicate (k + 1) 0xFF ++ (0xD9 :: rest)) :
    injectGo u8 (f + 1) p = Except.error "Unexpected EOI before SOS" ∧
    parseGo u8 mt (f + 1) p acc t = Except.ok acc := by
  have hlp : u8.length - p = (k + 1) + (1 + rest.length) := by
    have hl := congrArg List.length hdrop
    simp only [List.length_drop, List.length_append, List.length_replicate,
      List.length_cons] at hl
    omega
  have hplt : p < u8.length := by omega
  have h0 : u8.getD p 0 = 0xFF := by simpa using getD_of_drop_eq u8 p _ hdrop 0 0
  have hsf : skipFill u8 u8.length p = p + (k + 1) :=
    skipFill_replicate u8 k u8.length p 0xD9 rest (by omega) hdrop (by decide)
  have hm : u8.getD (p + (k + 1)) 0 = 0xD9 := by
    have h := getD_of_drop_eq u8 p _ hdrop (k + 1) 0
    rw [h]
    have h2 := getD_append_right (List.replicate (k + 1) 0xFF) (0xD9 :: rest) 0 0
    simpa [List.length_replicate] using h2
  constructor
  · rw [injectGo, if_pos hplt,
      if_neg (show ¬ (u8.getD p 0 ≠ 0xFF) from by rw [h0]; simp)]
    dsimp only
    rw [hsf, if_neg (show ¬ (u8.length ≤ p + (k + 1)) from by omega), hm]
    rw [if_neg (show ¬ ((0xD9 : Nat) = 0xDA) from by decide)]
    rw [if_pos (show (0xD9 : Nat) = 0xD9 from rfl)]
  · rw [parseGo, if_pos hplt,
      if_neg (show ¬ (u8.getD p 0 ≠ 0xFF) from by rw [h0]; simp)]
    dsimp only
    rw [hsf, if_neg (show ¬ (u8.length ≤ p + (k + 1)) from by omega), hm]
    rw [if_neg (show ¬ ((0xD9 : Nat) = 0xDA) from by decide)]
    rw [if_pos (show (0xD9 : Nat) = 0xD9 from rfl)]

theorem eoi_before_sos_behavior_witness :
    injectGo [0xFF, 0xD8, 0xFF, 0xD9] 4 2 =
        Except.error "Unexpected EOI before SOS" ∧
    parseGo [0xFF, 0xD8, 0xFF, 0xD9] (8 * 1024 * 1024) 4 2 [] 0 = Except.ok [] :=
  eoi_before_sos_behavior [0xFF, 0xD8, 0xFF, 0xD9] [] 0 3 2 (8 * 1024 * 1024) 0 []
    (by decide)

/-- C4 counterexample: on `FF D8 FF D9` (SOI then immediate EOI),
`injectBeforeSOS` raises the structural error, but `parseCartridge` does not
fail — it returns the empty block list collected so far. -/
theorem eoi_parse_counterexample :
    injectBeforeSOS [0xFF, 0xD8, 0xFF, 0xD9] [] =
        Except.error "Unexpected EOI before SOS" ∧
    parseCartridge [0xFF, 0xD8, 0xFF, 0xD9] (8 * 1024 * 1024) = Except.ok [] :=
  ⟨rfl, rfl⟩

/-! ## C2: round-trip of injected blocks through extraction -/

/-- Total payload size of a list of input blocks. -/
def sumPayloads : List BlockSpec → Nat
  | [] => 0
  | b :: bs => b.payload.length + sumPayloads bs

/-- Concatenation of the APP15 segments that `injectBeforeSOS` builds for a
list of blocks. -/
def segsOf : List BlockSpec → List Nat
  | [] => []
  | b :: bs => segOf (buildApp15Block b) ++ segsOf bs

theorem buildSegs_ok (bs : List BlockSpec)
    (hwf : ∀ b ∈ bs, (buildApp15Block b).length + 2 ≤ 0xFFFF) :
    buildSegs (bs.map buildApp15Block) = Except.ok (segsOf bs) := by
  induction bs with
  | nil => rfl
  | cons b bs ih =>
    show buildSegs (buildApp15Block b :: bs.map buildApp15Block) = _
    rw [buildSegs, if_neg (by
      have := hwf b (List.mem_cons_self b bs)
      omega)]
    rw [ih (fun x hx => hwf x (List.mem_cons_of_mem b hx))]
    rfl

/-- The CRC-less part of an encoded block: all 12 header bytes followed by
the payload (definitionally the `body` of `buildApp15Block`). -/
def blockBody (b : BlockSpec) : List Nat :=
  ([0x50, 0x50, 0x55, 0x4a, b.version % 2 ^ 8, b.blockType % 2 ^ 8,
    flagByte b % 2 ^ 8, 0] ++ u32be b.payload.length) ++ b.payload

theorem buildApp15Block_eq_body (b : BlockSpec) :
    buildApp15Block b =
      if b.crc then blockBody b ++ u32be (crc32 (blockBody b)) else blockBody b := rfl

theorem blockBody_length (b : BlockSpec) :
    (blockBody b).length = 12 + b.payload.length := by
  simp [blockBody, u32be]
  omega

theorem buildApp15Block_length (b : BlockSpec) :
    (buildApp15Block b).length =
      12 + b.payload.length + (if b.crc then 4 else 0) := by
  rw [buildApp15Block_eq_body]
  cases hc : b.crc <;> simp [blockBody_length, u32be]

theorem flagByte_lt (b : BlockSpec) : flagByte b < 4 := by
  unfold flagByte
  split <;> split <;> decide

theorem flagByte_crc_bit (b : BlockSpec) :
    flagByte b % 2 = 1 ↔ b.crc = true := by
  unfold flagByte
  cases b.crc <;> cases b.compressed <;> simp

theorem flagByte_encrypted_bit (b : BlockSpec) : ¬ (flagByte b / 4 % 2 = 1) := by
  have h := flagByte_lt b
  omega

theorem readU32BE_of_drop (pl : List Nat) (off v : Nat) (rest : List Nat)
    (h : pl.drop off = u32be v ++ rest) : readU32BE pl off = v % 2 ^ 32 := by
  have hg := getD_of_drop_eq pl off _ h
  have h0 : pl.getD off 0 = v / 2 ^ 24 % 2 ^ 8 := by simpa [u32be] using hg 0 0
  have h1 : pl.getD (off + 1) 0 = v / 2 ^ 16 % 2 ^ 8 := by simpa [u32be] using hg 1 0
  have h2 : pl.getD (off + 2) 0 = v / 2 ^ 8 % 2 ^ 8 := by simpa [u32be] using hg 2 0
  have h3 : pl.getD (off + 3) 0 = v % 2 ^ 8 := by simpa [u32be] using hg 3 0
  unfold readU32BE
  rw [h0, h1, h2, h3]
  have e8 : (2 : Nat) ^ 8 = 256 := rfl
  have e16 : (2 : Nat) ^ 16 = 65536 := rfl
  have e24 : (2 : Nat) ^ 24 = 16777216 := rfl
  have e32 : (2 : Nat) ^ 32 = 4294967296 := rfl
  rw [e8, e16, e24, e32]
  omega

theorem crcRound_lt (c : Nat) (h : c < 2 ^ 32) : crcRound c < 2 ^ 32 := by
  unfold crcRound
  have h1 : c / 2 < 2 ^ 32 := by omega
  split
  · exact Nat.xor_lt_two_pow h1 (by decide)
  · exact Nat.xor_lt_two_pow h1 (by decide)

theorem crcByte_lt (c b : Nat) (hc : c < 2 ^ 32) (hb : b < 2 ^ 8) :
    crcByte c b < 2 ^ 32 := by
  unfold crcByte
  have h0 : Nat.xor c b < 2 ^ 32 :=
    Nat.xor_lt_two_pow hc (by omega)
  show crcRound^[8] (Nat.xor c b) < 2 ^ 32
  have hstep : ∀ (k : Nat) (x : Nat), x < 2 ^ 32 → crcRound^[k] x < 2 ^ 32 := by
    intro k
    induction k with
    | zero => intro x hx; simpa using hx
    | succ k ih =>
      intro x hx
      rw [Function.iterate_succ_apply]
      exact ih _ (crcRound_lt x hx)
  exact hstep 8 _ h0

theorem crc32_lt (l : List Nat) (hl : ∀ x ∈ l, x < 2 ^ 8) : crc32 l < 2 ^ 32 := by
  unfold crc32
  have hfold : ∀ (l' : List Nat) (c : Nat), (∀ x ∈ l', x < 2 ^ 8) → c < 2 ^ 32 →
      l'.foldl crcByte c < 2 ^ 32 := by
    intro l'
    induction l' with
    | nil => intro c _ hc; simpa using hc
    | cons a l' ih =>
      intro c hm hc
      rw [List.foldl_cons]
      exact ih _ (fun x hx => hm x (List.mem_cons_of_mem a hx))
        (crcByte_lt c a hc (hm a (List.mem_cons_self a l')))
  exact Nat.xor_lt_two_pow (hfold l _ hl (by decide)) (by decide)

theorem drop_eq_getD_cons (l : List Nat) (n : Nat) (h : n < l.length) :
    l.drop n = l.getD n 0 :: l.drop (n + 1) := by
  induction l generalizing n with
  | nil => simp at h
  | cons a l ih =>
    cases n with
    | zero => rfl
    | succ n =>
      show l.drop n = l.getD n 0 :: l.drop (n + 1)
      exact ih n (by simpa using Nat.lt_of_succ_lt_succ h)

theorem skipFill_ge (l : List Nat) : ∀ (fuel p : Nat), p ≤ skipFill l fuel p := by
  intro fuel
  induction fuel with
  | zero => intro p; exact Nat.le_refl p
  | succ fuel ih =>
    intro p
    rw [skipFill]
    split
    · exact Nat.le_trans (Nat.le_succ p) (ih (p + 1))
    · exact Nat.le_refl p

theorem skipFill_ge_succ (l : List Nat) (p : Nat) (h1 : p < l.length)
    (h2 : l.getD p 0 = 0xFF) : p + 1 ≤ skipFill l l.length p := by
  obtain ⟨f, hf⟩ : ∃ f, l.length = f + 1 := ⟨l.length - 1, by omega⟩
  rw [hf, skipFill, if_pos ⟨h1, h2⟩]
  exact skipFill_ge l f (p + 1)

theorem skipFill_mem (l : List Nat) : ∀ (fuel p i : Nat), p ≤ i →
    i < skipFill l fuel p → l.getD i 0 = 0xFF := by
  intro fuel
  induction fuel with
  | zero =>
    intro p i hpi hi
    rw [skipFill] at hi
    omega
  | succ fuel ih =>
    intro p i hpi hi
    rw [skipFill] at hi
    split at hi
    · next hc =>
      rcases Nat.eq_or_lt_of_le hpi with h | h
      · rw [← h]; exact hc.2
      · exact ih (p + 1) i h hi
    · omega

theorem skipFill_eq_of_spec (l : List Nat) : ∀ (fuel p q : Nat), p ≤ q →
    q - p ≤ fuel → q ≤ l.length →
    (∀ i, p ≤ i → i < q → l.getD i 0 = 0xFF) →
    ¬ (q < l.length ∧ l.getD q 0 = 0xFF) →
    skipFill l fuel p = q := by
  intro fuel
  induction fuel with
  | zero =>
    intro p q hpq hf _ _ _
    have h : p = q := by omega
    rw [h]
    rfl
  | succ fuel ih =>
    intro p q hpq hf hql hff hstop
    rcases Nat.eq_or_lt_of_le hpq with h | h
    · rw [h]
      exact skipFill_stop l (fuel + 1) q hstop
    · rw [skipFill, if_pos ⟨by omega, hff p (Nat.le_refl p) h⟩]
      exact ih (p + 1) q (by omega) (by omega) hql
        (fun i hi hi2 => hff i (by omega) hi2) hstop

theorem injectGo_ok_spec (u8 : List Nat) : ∀ (f p s : Nat),
    injectGo u8 f p = Except.ok s →
    p ≤ s ∧ s + 1 < u8.length ∧ u8.getD s 0 = 0xFF ∧ u8.getD (s + 1) 0 = 0xDA := by
  intro f
  induction f with
  | zero => intro p s h; exact Except.noConfusion h
  | succ f ih =>
    intro p s h
    rw [injectGo] at h
    split at h
    · next hplt =>
      split at h
      · exact Except.noConfusion h
      · next hFF =>
        dsimp only at h
        split at h
        · exact Except.noConfusion h
        · next hql =>
          have hp0 : u8.getD p 0 = 0xFF := not_not.mp hFF
          have hq1 : p + 1 ≤ skipFill u8 u8.length p :=
            skipFill_ge_succ u8 p hplt hp0
          split at h
          · next hDA =>
            have hs : s = skipFill u8 u8.length p - 1 :=
              (Except.ok.inj h).symm
            refine ⟨by omega, by omega, ?_, ?_⟩
            · rw [hs]
              exact skipFill_mem u8 u8.length p _ (by omega) (by omega)
            · rw [hs, show skipFill u8 u8.length p - 1 + 1 =
                skipFill u8 u8.length p from by omega]
              exact hDA
          · split at h
            · exact Except.noConfusion h
            · split at h
              · have hr := ih _ _ h
                exact ⟨by omega, hr.2⟩
              · split at h
                · exact Except.noConfusion h
                · split at h
                  · exact Except.noConfusion h
                  · have hr := ih _ _ h
                    exact ⟨by omega, hr.2⟩
    · exact Except.noConfusion h

theorem parseGo_acc_grows (u8 : List Nat) (mt : Nat) : ∀ (f p t : Nat)
    (acc l : List BlockView), parseGo u8 mt f p acc t = Except.ok l →
    ∃ l', l = acc ++ l' := by
  intro f
  induction f with
  | zero => intro p t acc l h; exact Except.noConfusion h
  | succ f ih =>
    intro p t acc l h
    rw [parseGo] at h
    by_cases h1 : p < u8.length
    case neg =>
      rw [if_neg h1] at h
      exact ⟨[], by rw [← Except.ok.inj h, List.append_nil]⟩
    rw [if_pos h1] at h
    by_cases h2 : u8.getD p 0 ≠ 0xFF
    case pos =>
      rw [if_pos h2] at h
      exact Except.noConfusion h
    rw [if_neg h2] at h
    dsimp only at h
    set q := skipFill u8 u8.length p with hq
    by_cases h3 : u8.length ≤ q
    case pos =>
      rw [if_pos h3] at h
      exact Except.noConfusion h
    rw [if_neg h3] at h
    by_cases h4 : u8.getD q 0 = 0xDA
    case pos =>
      rw [if_pos h4] at h
      exact ⟨[], by rw [← Except.ok.inj h, List.append_nil]⟩
    rw [if_neg h4] at h
    by_cases h5 : u8.getD q 0 = 0xD9
    case pos =>
      rw [if_pos h5] at h
      exact ⟨[], by rw [← Except.ok.inj h, List.append_nil]⟩
    rw [if_neg h5] at h
    by_cases h6 : (0xD0 ≤ u8.getD q 0 ∧ u8.getD q 0 ≤ 0xD7) ∨ u8.getD q 0 = 0x01
    case pos =>
      rw [if_pos h6] at h
      exact ih _ _ _ _ h
    rw [if_neg h6] at h
    by_cases h7 : u8.length < q + 3
    case pos =>
      rw [if_pos h7] at h
      exact Except.noConfusion h
    rw [if_neg h7] at h
    set segLen := readU16BE u8 (q + 1) with hsl
    by_cases h8 : segLen < 2
    case pos =>
      rw [if_pos h8] at h
      exact Except.noConfusion h
    rw [if_neg h8] at h
    by_cases h9 : u8.length < q + 1 + segLen
    case pos =>
      rw [if_pos h9] at h
      exact Except.noConfusion h
    rw [if_neg h9] at h
    by_cases h10 : u8.getD q 0 = 0xEF
    case neg =>
      rw [if_neg h10] at h
      exact ih _ _ _ _ h
    rw [if_pos h10] at h
    rcases hh : handleApp15 ((u8.drop (q + 3)).take (segLen - 2)) mt t with e | ob
    · rw [hh] at h
      exact Except.noConfusion h
    · rcases ob with _ | ⟨b', n'⟩
      · rw [hh] at h
        exact ih _ _ _ _ h
      · rw [hh] at h
        obtain ⟨l', hl⟩ := ih _ _ _ _ h
        exact ⟨[b'] ++ l', by rw [hl, List.append_assoc]⟩

theorem buildApp15Block_magic (b : BlockSpec) :
    (buildApp15Block b).getD 0 0 = 0x50 ∧ (buildApp15Block b).getD 1 0 = 0x50 ∧
    (buildApp15Block b).getD 2 0 = 0x55 ∧ (buildApp15Block b).getD 3 0 = 0x4a ∧
    (buildApp15Block b).getD 4 0 = b.version % 2 ^ 8 ∧
    (buildApp15Block b).getD 5 0 = b.blockType % 2 ^ 8 ∧
    (buildApp15Block b).getD 6 0 = flagByte b % 2 ^ 8 := by
  rw [buildApp15Block_eq_body]
  cases b.crc
  · exact ⟨rfl, rfl, rfl, rfl, rfl, rfl, rfl⟩
  · exact ⟨rfl, rfl, rfl, rfl, rfl, rfl, rfl⟩

theorem buildApp15Block_drop8 (b : BlockSpec) :
    (buildApp15Block b).drop 8 = u32be b.payload.length ++
      (b.payload ++ (if b.crc then u32be (crc32 (blockBody b)) else [])) := by
  rw [buildApp15Block_eq_body]
  cases hb : b.crc
  · simp [blockBody, u32be]
  · simp [blockBody, u32be]

theorem buildApp15Block_drop12 (b : BlockSpec) :
    (buildApp15Block b).drop 12 =
      b.payload ++ (if b.crc then u32be (crc32 (blockBody b)) else []) := by
  have h := buildApp15Block_drop8 b
  have e : (buildApp15Block b).drop 12 = ((buildApp15Block b).drop 8).drop 4 := by
    rw [List.drop_drop]
  rw [e, h]
  rfl

theorem buildApp15Block_readU32 (b : BlockSpec)
    (hlen : (buildApp15Block b).length + 2 ≤ 0xFFFF) :
    readU32BE (buildApp15Block b) 8 = b.payload.length := by
  have h := readU32BE_of_drop (buildApp15Block b) 8 b.payload.length _
    (buildApp15Block_drop8 b)
  rw [h]
  have hl := buildApp15Block_length b
  have e32 : (2 : Nat) ^ 32 = 4294967296 := rfl
  rw [e32]
  have : b.payload.length < 4294967296 := by
    rcases Nat.lt_or_ge b.payload.length 4294967296 with hlt | hge
    · exact hlt
    · exfalso
      omega
  omega

theorem blockBody_bytes_lt (b : BlockSpec) (hpb : ∀ x ∈ b.payload, x < 2 ^ 8) :
    ∀ x ∈ blockBody b, x < 2 ^ 8 := by
  intro x hx
  simp only [blockBody, u32be, List.mem_append, List.mem_cons,
    List.not_mem_nil, or_false] at hx
  have h256 : (0 : Nat) < 2 ^ 8 := by decide
  rcases hx with (h | h) | h
  · rcases h with h | h | h | h | h | h | h | h <;> rw [h]
    all_goals first
      | decide
      | exact Nat.mod_lt _ h256
  · rcases h with h | h | h | h <;> rw [h] <;> exact Nat.mod_lt _ h256
  · exact hpb x h

theorem flagByte_mod2 (b : BlockSpec) :
    flagByte b % 2 = if b.crc then 1 else 0 := by
  unfold flagByte
  cases b.crc <;> cases b.compressed <;> rfl

theorem flagByte_mod256 (b : BlockSpec) : flagByte b % 2 ^ 8 = flagByte b :=
  Nat.mod_eq_of_lt (Nat.lt_trans (flagByte_lt b) (by decide))

/-- Decoding one injected block: `handleApp15` applied to the output of
`buildApp15Block` on a well-formed block reconstructs exactly the block's
fields and payload. -/
theorem handleApp15_block (b : BlockSpec) (mt t : Nat)
    (hv : b.version < 2 ^ 8) (hbt : b.blockType < 2 ^ 8)
    (hpb : ∀ x ∈ b.payload, x < 2 ^ 8)
    (hlen : (buildApp15Block b).length + 2 ≤ 0xFFFF)
    (hceil : t + b.payload.length ≤ mt) :
    handleApp15 (buildApp15Block b) mt t =
      Except.ok (some (blockView b, b.payload.length)) := by
  obtain ⟨g0, g1, g2, g3, g4, g5, g6⟩ := buildApp15Block_magic b
  have hL := buildApp15Block_length b
  have hn := buildApp15Block_readU32 b hlen
  have henc : ¬ ((buildApp15Block b).getD 6 0 / 4 % 2 = 1) := by
    rw [g6, flagByte_mod256]
    exact flagByte_encrypted_bit b
  have hv' : b.version % 2 ^ 8 = b.version := Nat.mod_eq_of_lt hv
  have hbt' : b.blockType % 2 ^ 8 = b.blockType := Nat.mod_eq_of_lt hbt
  cases hb : b.crc
  · have hbit : ¬ ((buildApp15Block b).getD 6 0 % 2 = 1) := by
      rw [g6, flagByte_mod256, flagByte_mod2, hb]
      decide
    have hL' : (buildApp15Block b).length = 12 + b.payload.length := by
      rw [hL, hb]
      rfl
    have hpay : ((buildApp15Block b).drop 12).take b.payload.length = b.payload := by
      rw [buildApp15Block_drop12, hb]
      show (b.payload ++ []).take b.payload.length = b.payload
      rw [List.append_nil, List.take_length]
    unfold handleApp15
    rw [if_pos ⟨by omega, g0, g1, g2, g3⟩, if_neg henc]
    dsimp only
    rw [hn, if_neg hbit, if_neg (show ¬ (12 + b.payload.length + 0 ≠
      (buildApp15Block b).length) from by omega)]
    rw [if_neg (show ¬ (mt < t + b.payload.length) from by omega)]
    rw [if_neg hbit, hpay, g4, g5, g6, flagByte_mod256, hv', hbt']
    rfl
  · have hbit : (buildApp15Block b).getD 6 0 % 2 = 1 := by
      rw [g6, flagByte_mod256, flagByte_mod2, hb]
      decide
    have hL' : (buildApp15Block b).length = 12 + b.payload.length + 4 := by
      rw [hL, hb]
      rfl
    have hbody : buildApp15Block b = blockBody b ++ u32be (crc32 (blockBody b)) := by
      rw [buildApp15Block_eq_body, hb]
      rfl
    have hpay : ((buildApp15Block b).drop 12).take b.payload.length = b.payload := by
      rw [buildApp15Block_drop12, hb]
      show (b.payload ++ u32be (crc32 (blockBody b))).take b.payload.length = b.payload
      rw [List.take_left]
    have hdropc : (buildApp15Block b).drop (12 + b.payload.length) =
        u32be (crc32 (blockBody b)) ++ [] := by
      rw [hbody, List.append_nil, ← blockBody_length b, List.drop_left]
    have hwant : readU32BE (buildApp15Block b) (12 + b.payload.length) =
        crc32 (blockBody b) := by
      rw [readU32BE_of_drop _ _ _ _ hdropc]
      exact Nat.mod_eq_of_lt (crc32_lt _ (blockBody_bytes_lt b hpb))
    have hgot : (buildApp15Block b).take (12 + b.payload.length) = blockBody b := by
      rw [hbody, ← blockBody_length b, List.take_left]
    unfold handleApp15
    rw [if_pos ⟨by omega, g0, g1, g2, g3⟩, if_neg henc]
    dsimp only
    rw [hn, if_pos hbit, if_neg (show ¬ (12 + b.payload.length + 4 ≠
      (buildApp15Block b).length) from by omega)]
    rw [if_neg (show ¬ (mt < t + b.payload.length) from by omega)]
    rw [if_pos hbit, hwant, hgot]
    rw [if_neg (show ¬ (crc32 (blockBody b) ≠ crc32 (blockBody b)) from
      fun h => h rfl)]
    rw [hpay, g4, g5, g6, flagByte_mod256, hv', hbt']
    rfl

/-- One extraction-walk iteration across an injected APP15 segment: the walk
decodes the block and moves to the end of the segment. -/
theorem parse_app15_block_step (u8' : List Nat) (mt fuel p q t : Nat)
    (acc : List BlockView) (b : BlockSpec) (tail : List Nat)
    (hv : b.version < 2 ^ 8) (hbt : b.blockType < 2 ^ 8)
    (hpb : ∀ x ∈ b.payload, x < 2 ^ 8)
    (hlen : (buildApp15Block b).length + 2 ≤ 0xFFFF)
    (hplt : p < u8'.length)
    (hp0 : u8'.getD p 0 = 0xFF)
    (hsf : skipFill u8' u8'.length p = q)
    (hqlt : q < u8'.length)
    (hq : u8'.getD q 0 = 0xEF)
    (hdropq : u8'.drop (q + 1) =
      ((buildApp15Block b).length + 2) % 2 ^ 16 / 2 ^ 8 ::
      ((buildApp15Block b).length + 2) % 2 ^ 8 :: (buildApp15Block b ++ tail))
    (hceil : t + b.payload.length ≤ mt) :
    parseGo u8' mt (fuel + 1) p acc t =
      parseGo u8' mt fuel (q + 1 + ((buildApp15Block b).length + 2))
        (acc ++ [blockView b]) (t + b.payload.length) := by
  have hlq : u8'.length - (q + 1) =
      2 + ((buildApp15Block b).length + tail.length) := by
    have hl := congrArg List.length hdropq
    simp only [List.length_drop, List.length_cons, List.length_append] at hl
    omega
  have hg := getD_of_drop_eq u8' (q + 1) _ hdropq
  have hhi : u8'.getD (q + 1) 0 =
      ((buildApp15Block b).length + 2) % 2 ^ 16 / 2 ^ 8 := by simpa using hg 0 0
  have hlo : u8'.getD (q + 2) 0 = ((buildApp15Block b).length + 2) % 2 ^ 8 := by
    have h := hg 1 0
    rw [show q + 1 + 1 = q + 2 from by omega] at h
    simpa using h
  have hseg : readU16BE u8' (q + 1) = (buildApp15Block b).length + 2 := by
    unfold readU16BE
    rw [hhi, show q + 1 + 1 = q + 2 from by omega, hlo]
    have e8 : (2 : Nat) ^ 8 = 256 := rfl
    have e16 : (2 : Nat) ^ 16 = 65536 := rfl
    rw [e8, e16]
    omega
  have hd3 : u8'.drop (q + 3) = buildApp15Block b ++ tail := by
    have e : (u8'.drop (q + 1)).drop 2 = u8'.drop (q + 1 + 2) := List.drop_drop 2 (q + 1) u8'
    rw [show q + 3 = q + 1 + 2 from by omega, ← e, hdropq]
    rfl
  have hpl : (u8'.drop (q + 3)).take ((buildApp15Block b).length + 2 - 2) =
      buildApp15Block b := by
    rw [hd3, show (buildApp15Block b).length + 2 - 2 =
      (buildApp15Block b).length from by omega, List.take_left]
  rw [parseGo, if_pos hplt,
    if_neg (show ¬ (u8'.getD p 0 ≠ 0xFF) from by rw [hp0]; simp)]
  dsimp only
  rw [hsf, if_neg (show ¬ (u8'.length ≤ q) from by omega), hq]
  rw [if_neg (show ¬ ((0xEF : Nat) = 0xDA) from by decide)]
  rw [if_neg (show ¬ ((0xEF : Nat) = 0xD9) from by decide)]
  rw [if_neg (show ¬ (((0xD0 : Nat) ≤ 0xEF ∧ (0xEF : Nat) ≤ 0xD7) ∨
    (0xEF : Nat) = 0x01) from by decide)]
  rw [if_neg (show ¬ (u8'.length < q + 3) from by omega)]
  rw [hseg]
  rw [if_neg (show ¬ ((buildApp15Block b).length + 2 < 2) from by omega)]
  rw [if_neg (show ¬ (u8'.length < q + 1 + ((buildApp15Block b).length + 2))
    from by omega)]
  rw [if_pos (show (0xEF : Nat) = 0xEF from rfl), hpl]
  rw [handleApp15_block b mt t hv hbt hpb hlen hceil]

/-- Extraction of a run of injected APP15 segments followed by the original
pre-SOS suffix: every block is decoded in order, and the walk ends at the
SOS marker with the accumulated list. -/
theorem parse_segs_chain (u8' : List Nat) (mt : Nat) :
    ∀ (bs : List BlockSpec) (p t fuel : Nat) (acc : List BlockView)
      (rest : List Nat),
    (∀ b ∈ bs, WellFormedBlock b) →
    t + sumPayloads bs ≤ mt →
    u8'.drop p = segsOf bs ++ (0xFF :: 0xDA :: rest) →
    u8'.length + 1 - p ≤ fuel →
    parseGo u8' mt fuel p acc t = Except.ok (acc ++ bs.map blockView) := by
  intro bs
  induction bs with
  | nil =>
    intro p t fuel acc rest hwf hsum hdrop hfuel
    have hlp : u8'.length - p = 2 + rest.length := by
      have hl := congrArg List.length hdrop
      simp only [List.length_drop, segsOf, List.nil_append, List.length_cons] at hl
      omega
    have hplt : p < u8'.length := by omega
    rw [segsOf, List.nil_append] at hdrop
    have hg := getD_of_drop_eq u8' p _ hdrop
    have hp0 : u8'.getD p 0 = 0xFF := by simpa using hg 0 0
    have hp1 : u8'.getD (p + 1) 0 = 0xDA := by simpa using hg 1 0
    have hsf : skipFill u8' u8'.length p = p + 1 :=
      skipFill_step u8' u8'.length p (by omega) hplt hp0 (by rw [hp1]; decide)
    obtain ⟨F, rfl⟩ : ∃ F, fuel = F + 1 := ⟨fuel - 1, by omega⟩
    rw [parseGo, if_pos hplt,
      if_neg (show ¬ (u8'.getD p 0 ≠ 0xFF) from by rw [hp0]; simp)]
    dsimp only
    rw [hsf, if_neg (show ¬ (u8'.length ≤ p + 1) from by omega), hp1,
      if_pos (show (0xDA : Nat) = 0xDA from rfl), List.map_nil, List.append_nil]
  | cons b bs ih =>
    intro p t fuel acc rest hwf hsum hdrop hfuel
    obtain ⟨hv, hbt, hpb, hlen⟩ := hwf b (List.mem_cons_self b bs)
    have hdrop' : u8'.drop p = 0xFF :: 0xEF ::
        ((buildApp15Block b).length + 2) % 2 ^ 16 / 2 ^ 8 ::
        ((buildApp15Block b).length + 2) % 2 ^ 8 ::
        (buildApp15Block b ++ (segsOf bs ++ (0xFF :: 0xDA :: rest))) := by
      rw [hdrop]
      simp [segsOf, segOf, List.append_assoc]
    have hlp : u8'.length - p = 4 + ((buildApp15Block b).length +
        ((segsOf bs).length + (2 + rest.length))) := by
      have hl := congrArg List.length hdrop'
      simp only [List.length_drop, List.length_cons, List.length_append] at hl
      omega
    have hplt : p < u8'.length := by omega
    have hg := getD_of_drop_eq u8' p _ hdrop'
    have hp0 : u8'.getD p 0 = 0xFF := by simpa using hg 0 0
    have hp1 : u8'.getD (p + 1) 0 = 0xEF := by simpa using hg 1 0
    have hsf : skipFill u8' u8'.length p = p + 1 :=
      skipFill_step u8' u8'.length p (by omega) hplt hp0 (by rw [hp1]; decide)
    have hdropq : u8'.drop (p + 1 + 1) =
        ((buildApp15Block b).length + 2) % 2 ^ 16 / 2 ^ 8 ::
        ((buildApp15Block b).length + 2) % 2 ^ 8 ::
        (buildApp15Block b ++ (segsOf bs ++ (0xFF :: 0xDA :: rest))) := by
      have e : (u8'.drop p).drop 2 = u8'.drop (p + 2) := List.drop_drop 2 p u8'
      rw [show p + 1 + 1 = p + 2 from by omega, ← e, hdrop']
      rfl
    obtain ⟨F, rfl⟩ : ∃ F, fuel = F + 1 := ⟨fuel - 1, by omega⟩
    rw [parse_app15_block_step u8' mt F p (p + 1) t acc b
      (segsOf bs ++ (0xFF :: 0xDA :: rest)) hv hbt hpb hlen hplt hp0 hsf
      (by omega) hp1 hdropq (by
        show t + b.payload.length ≤ mt
        have : sumPayloads (b :: bs) = b.payload.length + sumPayloads bs := rfl
        omega)]
    have e2 : p + 1 + 1 + ((buildApp15Block b).length + 2) =
        p + ((buildApp15Block b).length + 4) := by omega
    rw [e2]
    have hdropnext : u8'.drop (p + ((buildApp15Block b).length + 4)) =
        segsOf bs ++ (0xFF :: 0xDA :: rest) := by
      rw [← List.drop_drop ((buildApp15Block b).length + 4) p u8', hdrop']
      show ((buildApp15Block b ++ (segsOf bs ++ (0xFF :: 0xDA :: rest)))).drop
        ((buildApp15Block b).length) = _
      rw [List.drop_left]
    rw [ih (p + ((buildApp15Block b).length + 4)) (t + b.payload.length) F
      (acc ++ [blockView b]) rest
      (fun x hx => hwf x (List.mem_cons_of_mem b hx))
      (by
        have : sumPayloads (b :: bs) = b.payload.length + sumPayloads bs := rfl
        omega)
      hdropnext (by omega)]
    rw [List.map_cons, List.append_assoc]
    rfl

theorem getD_eq_of_take_eq (l1 l2 : List Nat) (n i d : Nat)
    (h : l1.take n = l2.take n) (hi : i < n) : l1.getD i d = l2.getD i d := by
  rw [← getD_take l1 n i d hi, h, getD_take l2 n i d hi]

theorem slice_eq_of_take_eq (l1 l2 : List Nat) (n a m : Nat)
    (h : l1.take n = l2.take n) (ham : a + m ≤ n) :
    (l1.drop a).take m = (l2.drop a).take m := by
  have e1 : ∀ (l : List Nat), (l.drop a).take m = ((l.take n).drop a).take m := by
    intro l
    rw [List.drop_take, List.take_take, Nat.min_eq_left (by omega)]
  rw [e1 l1, e1 l2, h]

theorem skipFill_last (l : List Nat) : ∀ (fuel p q : Nat),
    skipFill l fuel p = q → q - p < fuel →
    ¬ (q < l.length ∧ l.getD q 0 = 0xFF) := by
  intro fuel
  induction fuel with
  | zero => intro p q _ hf; omega
  | succ fuel ih =>
    intro p q hq hf
    rw [skipFill] at hq
    split at hq
    · next hc =>
      have hge : p + 1 ≤ q := hq ▸ skipFill_ge l fuel (p + 1)
      exact ih (p + 1) q hq (by omega)
    · next hc =>
      rw [← hq]
      exact hc

theorem skipFill_transfer (u8 out : List Nat) (p q n : Nat)
    (htake : out.take n = u8.take n)
    (hq : skipFill u8 u8.length p = q) (hqn : q < n) (hnlen : n ≤ u8.length)
    (hlen2 : u8.length ≤ out.length) :
    skipFill out out.length p = q := by
  have hpq : p ≤ q := hq ▸ skipFill_ge u8 u8.length p
  apply skipFill_eq_of_spec
  · exact hpq
  · omega
  · omega
  · intro i hpi hiq
    rw [getD_eq_of_take_eq out u8 n i 0 htake (by omega)]
    exact skipFill_mem u8 u8.length p i hpi (hq ▸ hiq)
  · have hstop := skipFill_last u8 u8.length p q hq (by omega)
    intro hc
    apply hstop
    exact ⟨by omega, by
      rw [← getD_eq_of_take_eq out u8 n q 0 htake (by omega)]
      exact hc.2⟩

theorem handleApp15_none (pl : List Nat) (mt tb t : Nat)
    (h : handleApp15 pl mt tb = Except.ok none) :
    handleApp15 pl mt t = Except.ok none := by
  unfold handleApp15 at h ⊢
  by_cases hm : 12 ≤ pl.length ∧ pl.getD 0 0 = 0x50 ∧ pl.getD 1 0 = 0x50 ∧
      pl.getD 2 0 = 0x55 ∧ pl.getD 3 0 = 0x4a
  · exfalso
    rw [if_pos hm] at h
    dsimp only at h
    repeat' split at h
    all_goals first
      | exact Except.noConfusion h
      | exact Option.noConfusion (Except.ok.inj h)
  · rw [if_neg hm]

/-- The spliced output of `injectBeforeSOS`: original prefix, injected APP15
segments, original suffix. -/
def spliced (u8 : List Nat) (bs : List BlockSpec) (sosOff : Nat) : List Nat :=
  u8.take sosOff ++ (segsOf bs ++ u8.drop sosOff)

theorem spliced_length (u8 : List Nat) (bs : List BlockSpec) (sosOff : Nat)
    (h : sosOff ≤ u8.length) :
    (spliced u8 bs sosOff).length = u8.length + (segsOf bs).length := by
  simp [spliced, List.length_append, List.length_take, List.length_drop]
  omega

theorem spliced_take (u8 : List Nat) (bs : List BlockSpec) (sosOff : Nat)
    (h : sosOff ≤ u8.length) :
    (spliced u8 bs sosOff).take sosOff = u8.take sosOff := by
  have htklen : (u8.take sosOff).length = sosOff := by
    rw [List.length_take]
    omega
  have h2 := List.take_left (u8.take sosOff) (segsOf bs ++ u8.drop sosOff)
  rw [htklen] at h2
  exact h2

theorem spliced_drop (u8 : List Nat) (bs : List BlockSpec) (sosOff : Nat)
    (h : sosOff ≤ u8.length) :
    (spliced u8 bs sosOff).drop sosOff = segsOf bs ++ u8.drop sosOff := by
  have htklen : (u8.take sosOff).length = sosOff := by
    rw [List.length_take]
    omega
  have h2 := List.drop_left (u8.take sosOff) (segsOf bs ++ u8.drop sosOff)
  rw [htklen] at h2
  exact h2

/-- Main simulation: if the splice-point walk succeeds on the base image and
the base image itself extracts to no blocks, then the extraction walk over
the spliced output collects exactly the injected blocks. -/
theorem inject_parse_sim (u8 : List Nat) (mt : Nat) (bs : List BlockSpec)
    (sosOff : Nat) (hwf : ∀ b ∈ bs, WellFormedBlock b) :
    ∀ (f p t tb fuel : Nat) (acc : List BlockView),
    injectGo u8 f p = Except.ok sosOff →
    parseGo u8 mt f p [] tb = Except.ok [] →
    t + sumPayloads bs ≤ mt →
    (spliced u8 bs sosOff).length + 1 - p ≤ fuel →
    parseGo (spliced u8 bs sosOff) mt fuel p acc t =
      Except.ok (acc ++ bs.map blockView) := by
  intro f
  induction f with
  | zero => intro p t tb fuel acc hinj _ _ _; exact Except.noConfusion hinj
  | succ f ih =>
    intro p t tb fuel acc hinj hbase hsum hfuel
    obtain ⟨hps, hsos1, hsosFF, hsosDA⟩ := injectGo_ok_spec u8 (f + 1) p sosOff hinj
    have hsosle : sosOff ≤ u8.length := by omega
    have houtlen : (spliced u8 bs sosOff).length = u8.length + (segsOf bs).length :=
      spliced_length u8 bs sosOff hsosle
    have htake : (spliced u8 bs sosOff).take sosOff = u8.take sosOff :=
      spliced_take u8 bs sosOff hsosle
    have hdropout : (spliced u8 bs sosOff).drop sosOff = segsOf bs ++ u8.drop sosOff :=
      spliced_drop u8 bs sosOff hsosle
    rw [injectGo] at hinj
    rw [parseGo] at hbase
    by_cases h1 : p < u8.length
    case neg => rw [if_neg h1] at hinj; exact Except.noConfusion hinj
    rw [if_pos h1] at hinj
    rw [if_pos h1] at hbase
    by_cases h2 : u8.getD p 0 ≠ 0xFF
    case pos => rw [if_pos h2] at hinj; exact Except.noConfusion hinj
    rw [if_neg h2] at hinj
    rw [if_neg h2] at hbase
    have hpFF : u8.getD p 0 = 0xFF := not_not.mp h2
    dsimp only at hinj
    dsimp only at hbase
    set q := skipFill u8 u8.length p with hqdef
    by_cases h3 : u8.length ≤ q
    case pos => rw [if_pos h3] at hinj; exact Except.noConfusion hinj
    rw [if_neg h3] at hinj
    rw [if_neg h3] at hbase
    have hq1 : p + 1 ≤ q := by
      rw [hqdef]
      exact skipFill_ge_succ u8 p h1 hpFF
    have hplenout : p < (spliced u8 bs sosOff).length := by omega
    obtain ⟨F, rfl⟩ : ∃ F, fuel = F + 1 := ⟨fuel - 1, by omega⟩
    by_cases h4 : u8.getD q 0 = 0xDA
    · -- final iteration: the SOS marker found; q = sosOff + 1
      rw [if_pos h4] at hinj
      have hqsos : q = sosOff + 1 := by
        have hi := Except.ok.inj hinj
        omega
      have hfill : ∀ i, p ≤ i → i < sosOff + 1 → u8.getD i 0 = 0xFF := by
        intro i hpi hil
        exact skipFill_mem u8 u8.length p i hpi (by rw [← hqdef, hqsos]; omega)
      have hfillout : ∀ i, p ≤ i → i < sosOff → (spliced u8 bs sosOff).getD i 0 = 0xFF := by
        intro i hpi hil
        rw [getD_eq_of_take_eq _ u8 sosOff i 0 htake hil]
        exact hfill i hpi (by omega)
      have hdropu8 : u8.drop sosOff = 0xFF :: 0xDA :: u8.drop (sosOff + 2) := by
        rw [drop_eq_getD_cons u8 sosOff (by omega), hsosFF,
          drop_eq_getD_cons u8 (sosOff + 1) (by omega), hsosDA]
      cases bs with
      | nil =>
        have hdrop2 : (spliced u8 [] sosOff).drop sosOff =
            0xFF :: 0xDA :: u8.drop (sosOff + 2) := by
          rw [hdropout, hdropu8]
          rfl
        have hgout := getD_of_drop_eq _ sosOff _ hdrop2
        have hsosO : (spliced u8 [] sosOff).getD sosOff 0 = 0xFF := by
          simpa using hgout 0 0
        have hsos1O : (spliced u8 [] sosOff).getD (sosOff + 1) 0 = 0xDA := by
          simpa using hgout 1 0
        have hsfout : skipFill (spliced u8 [] sosOff)
            (spliced u8 [] sosOff).length p = sosOff + 1 := by
          apply skipFill_eq_of_spec
          · omega
          · omega
          · omega
          · intro i hpi hil
            rcases Nat.lt_or_ge i sosOff with hlt | hge
            · exact hfillout i hpi hlt
            · rw [show i = sosOff from by omega]
              exact hsosO
          · intro hc
            rw [hsos1O] at hc
            exact absurd hc.2 (by decide)
        have hpout : (spliced u8 [] sosOff).getD p 0 = 0xFF := by
          rcases Nat.lt_or_ge p sosOff with hlt | hge
          · exact hfillout p (Nat.le_refl p) hlt
          · rw [show p = sosOff from by omega]
            exact hsosO
        rw [parseGo, if_pos hplenout,
          if_neg (show ¬ ((spliced u8 [] sosOff).getD p 0 ≠ 0xFF) from by
            rw [hpout]; simp)]
        dsimp only
        rw [hsfout, if_neg (show ¬ ((spliced u8 [] sosOff).length ≤ sosOff + 1)
          from by omega), hsos1O, if_pos (show (0xDA : Nat) = 0xDA from rfl)]
        rw [List.map_nil, List.append_nil]
      | cons b bs' =>
        obtain ⟨hv, hbt, hpb, hlen⟩ := hwf b (List.mem_cons_self b bs')
        have hdrop2 : (spliced u8 (b :: bs') sosOff).drop sosOff =
            0xFF :: 0xEF ::
            ((buildApp15Block b).length + 2) % 2 ^ 16 / 2 ^ 8 ::
            ((buildApp15Block b).length + 2) % 2 ^ 8 ::
            (buildApp15Block b ++
              (segsOf bs' ++ (0xFF :: 0xDA :: u8.drop (sosOff + 2)))) := by
          rw [hdropout, hdropu8]
          simp [segsOf, segOf, List.append_assoc]
        have hgout := getD_of_drop_eq _ sosOff _ hdrop2
        have hsosO : (spliced u8 (b :: bs') sosOff).getD sosOff 0 = 0xFF := by
          simpa using hgout 0 0
        have hsos1O : (spliced u8 (b :: bs') sosOff).getD (sosOff + 1) 0 = 0xEF := by
          simpa using hgout 1 0
        have hsfout : skipFill (spliced u8 (b :: bs') sosOff)
            (spliced u8 (b :: bs') sosOff).length p = sosOff + 1 := by
          apply skipFill_eq_of_spec
          · omega
          · omega
          · omega
          · intro i hpi hil
            rcases Nat.lt_or_ge i sosOff with hlt | hge
            · exact hfillout i hpi hlt
            · rw [show i = sosOff from by omega]
              exact hsosO
          · intro hc
            rw [hsos1O] at hc
            exact absurd hc.2 (by decide)
        have hpout : (spliced u8 (b :: bs') sosOff).getD p 0 = 0xFF := by
          rcases Nat.lt_or_ge p sosOff with hlt | hge
          · exact hfillout p (Nat.le_refl p) hlt
          · rw [show p = sosOff from by omega]
            exact hsosO
        have hdropq : (spliced u8 (b :: bs') sosOff).drop (sosOff + 1 + 1) =
            ((buildApp15Block b).length + 2) % 2 ^ 16 / 2 ^ 8 ::
            ((buildApp15Block b).length + 2) % 2 ^ 8 ::
            (buildApp15Block b ++
              (segsOf bs' ++ (0xFF :: 0xDA :: u8.drop (sosOff + 2)))) := by
          have e : ((spliced u8 (b :: bs') sosOff).drop sosOff).drop 2 =
              (spliced u8 (b :: bs') sosOff).drop (sosOff + 2) :=
            List.drop_drop 2 sosOff _
          rw [show sosOff + 1 + 1 = sosOff + 2 from by omega, ← e, hdrop2]
          rfl
        rw [parse_app15_block_step (spliced u8 (b :: bs') sosOff) mt F p
          (sosOff + 1) t acc b
          (segsOf bs' ++ (0xFF :: 0xDA :: u8.drop (sosOff + 2)))
          hv hbt hpb hlen hplenout hpout hsfout (by omega) hsos1O hdropq
          (by
            have : sumPayloads (b :: bs') = b.payload.length + sumPayloads bs' := rfl
            omega)]
        have e2 : sosOff + 1 + 1 + ((buildApp15Block b).length + 2) =
            sosOff + ((buildApp15Block b).length + 4) := by omega
        rw [e2]
        have hdropnext : (spliced u8 (b :: bs') sosOff).drop
            (sosOff + ((buildApp15Block b).length + 4)) =
            segsOf bs' ++ (0xFF :: 0xDA :: u8.drop (sosOff + 2)) := by
          rw [← List.drop_drop ((buildApp15Block b).length + 4) sosOff _, hdrop2]
          show ((buildApp15Block b ++
            (segsOf bs' ++ (0xFF :: 0xDA :: u8.drop (sosOff + 2))))).drop
              ((buildApp15Block b).length) = _
          rw [List.drop_left]
        rw [parse_segs_chain (spliced u8 (b :: bs') sosOff) mt bs'
          (sosOff + ((buildApp15Block b).length + 4)) (t + b.payload.length) F
          (acc ++ [blockView b]) (u8.drop (sosOff + 2))
          (fun x hx => hwf x (List.mem_cons_of_mem b hx))
          (by
            have : sumPayloads (b :: bs') = b.payload.length + sumPayloads bs' := rfl
            omega)
          hdropnext
          (by omega)]
        rw [List.map_cons, List.append_assoc]
        rfl
    · -- not the SOS marker yet
      rw [if_neg h4] at hinj
      rw [if_neg h4] at hbase
      by_cases h5 : u8.getD q 0 = 0xD9
      case pos => rw [if_pos h5] at hinj; exact Except.noConfusion hinj
      rw [if_neg h5] at hinj
      rw [if_neg h5] at hbase
      by_cases h6 : ((0xD0 : Nat) ≤ u8.getD q 0 ∧ u8.getD q 0 ≤ 0xD7) ∨
        u8.getD q 0 = 0x01
      · -- restart marker / TEM: no length field
        rw [if_pos h6] at hinj
        rw [if_pos h6] at hbase
        obtain ⟨hps', _, _, _⟩ := injectGo_ok_spec u8 f (q + 1) sosOff hinj
        have hqlt : q < sosOff := by omega
        have hsfout : skipFill (spliced u8 bs sosOff)
            (spliced u8 bs sosOff).length p = q :=
          skipFill_transfer u8 _ p q sosOff htake hqdef.symm hqlt (by omega)
            (by omega)
        have hpo : (spliced u8 bs sosOff).getD p 0 = 0xFF := by
          rw [getD_eq_of_take_eq _ u8 sosOff p 0 htake (by omega)]
          exact hpFF
        have hqo : (spliced u8 bs sosOff).getD q 0 = u8.getD q 0 :=
          getD_eq_of_take_eq _ u8 sosOff q 0 htake (by omega)
        rw [parseGo, if_pos hplenout,
          if_neg (show ¬ ((spliced u8 bs sosOff).getD p 0 ≠ 0xFF) from by
            rw [hpo]; simp)]
        dsimp only
        rw [hsfout, if_neg (show ¬ ((spliced u8 bs sosOff).length ≤ q) from by
          omega), hqo, if_neg h4, if_neg h5, if_pos h6]
        exact ih (q + 1) t tb F acc hinj hbase hsum (by omega)
      · rw [if_neg h6] at hinj
        rw [if_neg h6] at hbase
        by_cases h7 : u8.length < q + 3
        case pos => rw [if_pos h7] at hinj; exact Except.noConfusion hinj
        rw [if_neg h7] at hinj
        rw [if_neg h7] at hbase
        set segLen := readU16BE u8 (q + 1) with hsldef
        by_cases h8 : segLen < 2
        case pos => rw [if_pos h8] at hinj; exact Except.noConfusion hinj
        rw [if_neg h8] at hinj
        rw [if_neg h8] at hbase
        obtain ⟨hps', _, _, _⟩ := injectGo_ok_spec u8 f (q + 1 + segLen) sosOff hinj
        have hqlt : q < sosOff := by omega
        have hsegsos : q + 1 + segLen ≤ sosOff := hps'
        have h9 : ¬ (u8.length < q + 1 + segLen) := by omega
        rw [if_neg h9] at hbase
        have hsfout : skipFill (spliced u8 bs sosOff)
            (spliced u8 bs sosOff).length p = q :=
          skipFill_transfer u8 _ p q sosOff htake hqdef.symm hqlt (by omega)
            (by omega)
        have hpo : (spliced u8 bs sosOff).getD p 0 = 0xFF := by
          rw [getD_eq_of_take_eq _ u8 sosOff p 0 htake (by omega)]
          exact hpFF
        have hqo : (spliced u8 bs sosOff).getD q 0 = u8.getD q 0 :=
          getD_eq_of_take_eq _ u8 sosOff q 0 htake (by omega)
        have hslo : readU16BE (spliced u8 bs sosOff) (q + 1) = segLen := by
          unfold readU16BE
          rw [getD_eq_of_take_eq _ u8 sosOff (q + 1) 0 htake (by omega),
            getD_eq_of_take_eq _ u8 sosOff (q + 1 + 1) 0 htake (by omega)]
          rw [hsldef]
          rfl
        rw [parseGo, if_pos hplenout,
          if_neg (show ¬ ((spliced u8 bs sosOff).getD p 0 ≠ 0xFF) from by
            rw [hpo]; simp)]
        dsimp only
        rw [hsfout, if_neg (show ¬ ((spliced u8 bs sosOff).length ≤ q) from by
          omega), hqo, if_neg h4, if_neg h5, if_neg h6,
          if_neg (show ¬ ((spliced u8 bs sosOff).length < q + 3) from by omega),
          hslo, if_neg h8,
          if_neg (show ¬ ((spliced u8 bs sosOff).length < q + 1 + segLen) from by
            omega)]
        by_cases h10 : u8.getD q 0 = 0xEF
        · rw [if_pos h10]
          rw [if_pos h10] at hbase
          have hslice : ((spliced u8 bs sosOff).drop (q + 3)).take (segLen - 2) =
              (u8.drop (q + 3)).take (segLen - 2) :=
            slice_eq_of_take_eq _ u8 sosOff (q + 3) (segLen - 2) htake (by omega)
          rw [hslice]
          rcases hh : handleApp15 ((u8.drop (q + 3)).take (segLen - 2)) mt tb
            with e | ob
          · rw [hh] at hbase
            dsimp only at hbase
            exact Except.noConfusion hbase
          · rcases ob with _ | ⟨b', n'⟩
            · rw [hh] at hbase
              dsimp only at hbase
              rw [handleApp15_none _ mt tb t hh]
              exact ih (q + 1 + segLen) t tb F acc hinj hbase hsum (by omega)
            · rw [hh] at hbase
              dsimp only at hbase
              obtain ⟨l', hl⟩ := parseGo_acc_grows u8 mt f _ _ _ _ hbase
              exact absurd hl (by simp)
        · rw [if_neg h10]
          rw [if_neg h10] at hbase
          exact ih (q + 1 + segLen) t tb F acc hinj hbase hsum (by omega)

/-- C2: round-trip.  For every well-formed block list (u8 fields in range,
byte payloads, encoded segment ≤ 65535 bytes, cumulative payload within the
extraction ceiling) and every base JPEG that splices successfully and whose
own pre-scan walk extracts no PPUJ blocks, extracting from the spliced
output returns exactly the injected blocks, field for field and in order;
and the spliced bytes before the splice point equal the base prefix. -/
theorem inject_extract_roundtrip (u8 : List Nat) (bs : List BlockSpec)
    (mt : Nat) (out : List Nat)
    (hwf : ∀ b ∈ bs, WellFormedBlock b)
    (hsum : sumPayloads bs ≤ mt)
    (hbase : parseCartridge u8 mt = Except.ok [])
    (hinj : injectBeforeSOS u8 (bs.map buildApp15Block) = Except.ok out) :
    parseCartridge out mt = Except.ok (bs.map blockView) ∧
    ∃ s, injectGo u8 (u8.length + 1) 2 = Except.ok s ∧ out.take s = u8.take s := by
  rw [parseCartridge] at hbase
  rw [injectBeforeSOS] at hinj
  by_cases hsoi : u8.length < 4 ∨ u8.getD 0 0 ≠ 0xFF ∨ u8.getD 1 0 ≠ 0xD8
  case pos =>
    rw [if_pos hsoi] at hbase
    exact Except.noConfusion hbase
  rw [if_neg hsoi] at hbase
  rw [if_neg hsoi] at hinj
  push_neg at hsoi
  obtain ⟨hl4, h0FF, h1D8⟩ := hsoi
  rcases hio : injectGo u8 (u8.length + 1) 2 with e | s
  · rw [hio] at hinj
    exact Except.noConfusion hinj
  rw [hio] at hinj
  rw [buildSegs_ok bs (fun b hb => (hwf b hb).2.2.2)] at hinj
  dsimp only at hinj
  have hout : out = spliced u8 bs s := by
    rw [spliced, ← List.append_assoc]
    exact (Except.ok.inj hinj).symm
  obtain ⟨hps, hsos1, _, _⟩ := injectGo_ok_spec u8 (u8.length + 1) 2 s hio
  have hsosle : s ≤ u8.length := by omega
  have htake : (spliced u8 bs s).take s = u8.take s := spliced_take u8 bs s hsosle
  have houtlen : (spliced u8 bs s).length = u8.length + (segsOf bs).length :=
    spliced_length u8 bs s hsosle
  constructor
  · rw [hout, parseCartridge]
    rw [if_neg (show ¬ ((spliced u8 bs s).length < 4 ∨
        (spliced u8 bs s).getD 0 0 ≠ 0xFF ∨
        (spliced u8 bs s).getD 1 0 ≠ 0xD8) from by
      push_neg
      refine ⟨by omega, ?_, ?_⟩
      · rw [getD_eq_of_take_eq _ u8 s 0 0 htake (by omega)]
        exact h0FF
      · rw [getD_eq_of_take_eq _ u8 s 1 0 htake (by omega)]
        exact h1D8)]
    have h := inject_parse_sim u8 mt bs s hwf (u8.length + 1) 2 0 0
      ((spliced u8 bs s).length + 1) [] hio hbase (by omega) (by omega)
    rw [h]
    rw [List.nil_append]
  · exact ⟨s, rfl, by rw [hout]; exact htake⟩

set_option maxRecDepth 4096 in
theorem inject_extract_roundtrip_witness :
    parseCartridge (spliced [0xFF, 0xD8, 0xFF, 0xDA]
        [⟨2, [7], 1, true, false⟩] 2) (8 * 1024 * 1024) =
      Except.ok ([(⟨2, [7], 1, true, false⟩ : BlockSpec)].map blockView) ∧
    ∃ s, injectGo [0xFF, 0xD8, 0xFF, 0xDA]
        (([0xFF, 0xD8, 0xFF, 0xDA] : List Nat).length + 1) 2 = Except.ok s ∧
      (spliced [0xFF, 0xD8, 0xFF, 0xDA] [⟨2, [7], 1, true, false⟩] 2).take s =
        ([0xFF, 0xD8, 0xFF, 0xDA] : List Nat).take s :=
  inject_extract_roundtrip [0xFF, 0xD8, 0xFF, 0xDA] [⟨2, [7], 1, true, false⟩]
    (8 * 1024 * 1024)
    (spliced [0xFF, 0xD8, 0xFF, 0xDA] [⟨2, [7], 1, true, false⟩] 2)
    (by decide) (by decide) (by rfl) (by rfl)
